import Mathlib

/-!
# Verification of the per-node telemetry core (`packages/backend/src/Node.ts`)

This file shallowly embeds the `Node` session class of the telemetry backend:
the consensus-view cache with its `backfill` algorithm and
`truncateBlockCache` pruning, the message handlers (`onMessage`,
`onSystemInterval`, `onNotifyFinalized`, `onAfgFinalized`,
`onAfgReceivedPrecommit`, `onAfgReceivedPrevote`, `onAfgAuthoritySet`),
best-block tracking (`updateBestBlock`), and the connection lifecycle
(`timeoutCheck`, `disconnect`).  JavaScript objects keyed by block numbers
are modelled as association lists whose `Object.keys` view is the
numerically sorted key list, matching the JavaScript enumeration order of
integer-like keys.  Mutation is modelled by explicit state passing; a
JavaScript exception escaping a handler is modelled by a `threw` flag
(state mutated up to the throw point is kept, later steps are skipped).
-/

namespace Telemetry

/-- `Block` (Block.ts): an immutable pair of block number and hash. -/
structure Block where
  number : Nat
  hash : String
deriving Repr, DecidableEq

/-- `Block.ZERO`: the zero block value. -/
def Block.ZERO : Block := ⟨0, ""⟩

/-- One `ConsensusInfo` record (per height, per voter): the explicit flags
`Prevote`/`Precommit`/`Finalized`, their implicit counterparts, and the
optional hash/height/pointer fields.  A fresh JavaScript object literal
(all fields absent, i.e. falsy/undefined) corresponds to the default
value. -/
structure ConsensusInfo where
  Prevote : Bool := false
  Precommit : Bool := false
  Finalized : Bool := false
  ImplicitPrevote : Bool := false
  ImplicitPrecommit : Bool := false
  ImplicitFinalized : Bool := false
  FinalizedHash : Option String := none
  FinalizedHeight : Option Nat := none
  ImplicitPointer : Option Nat := none
deriving Repr, DecidableEq

/-- The per-height row of the consensus cache: voter address → record.
JavaScript string-keyed objects enumerate in insertion order, which the
association list preserves. -/
abbrev VoterRow := List (String × ConsensusInfo)

/-- `ConsensusView`: block height → voter row.  Heights are block numbers
(non-negative integers), so JavaScript enumerates the keys in ascending
numeric order regardless of insertion order; `cvKeys` below recovers that
view. -/
abbrev ConsensusView := List (Nat × VoterRow)

/-- Lookup of `cache[height]` (`undefined` ↦ `none`). -/
def cvFindRow (c : ConsensusView) (h : Nat) : Option VoterRow :=
  (c.find? (fun p => p.1 == h)).map (·.2)

/-- Lookup of `row[addr]` (`undefined` ↦ `none`). -/
def rowFind (r : VoterRow) (a : String) : Option ConsensusInfo :=
  (r.find? (fun p => p.1 == a)).map (·.2)

/-- Lookup of `cache[height][addr]`. -/
def cvGetInfo (c : ConsensusView) (h : Nat) (a : String) : Option ConsensusInfo :=
  (cvFindRow c h).bind (fun r => rowFind r a)

/-- Apply `f` to the row stored at key `h` (in place; absent key: no-op —
every call site has created the row first, as the JavaScript code does). -/
def cvModifyRow (c : ConsensusView) (h : Nat) (f : VoterRow → VoterRow) : ConsensusView :=
  c.map (fun p => if p.1 == h then (p.1, f p.2) else p)

/-- Apply `f` to the record stored at `cache[h][a]` (in place; absent
entry: no-op — the JavaScript code would throw, and the handlers below
test presence explicitly to model that). -/
def cvUpdate (c : ConsensusView) (h : Nat) (a : String) (f : ConsensusInfo → ConsensusInfo) :
    ConsensusView :=
  cvModifyRow c h (fun r => r.map (fun p => if p.1 == a then (p.1, f p.2) else p))

/-- `Object.keys(this.consensusCache)`: ascending numeric order of the
integer-like keys (the JavaScript enumeration order), as a list of
heights. -/
def cvKeys (c : ConsensusView) : List Nat :=
  (c.map Prod.fst).insertionSort (· ≤ ·)

/-- JavaScript truthiness of a `Maybe<Types.Address>` (or of a plain
address string wrapped in `some`): `null` and the empty string are
falsy. -/
def isFalsyAddr : Option String → Bool
  | none => true
  | some s => s.isEmpty

/-- JavaScript `String(x)` on a `Maybe` address: `String(null) = "null"`. -/
def jsString : Option String → String
  | none => "null"
  | some s => s

/-- `initialiseConsensusView(height, addr)`: lazily create the height row
and, when `addr` is truthy, the voter's empty record. -/
def initialiseConsensusView (c : ConsensusView) (height : Nat) (addr : Option String) :
    ConsensusView :=
  let c1 := if (cvFindRow c height).isSome then c else c ++ [(height, [])]
  match addr with
  | none => c1
  | some a =>
    if a.isEmpty then c1
    else if (cvGetInfo c1 height a).isSome then c1
    else cvModifyRow c1 height (fun r => r ++ [(a, ({} : ConsensusInfo))])

/-- The state-passing type of the `f` continuation handed to `backfill`:
in the source `f` closes over `this.consensusCache` and mutates it, so
here it consumes and returns the cache alongside its `boolean` result. -/
abbrev MutateFn := ConsensusView → Nat → Bool × ConsensusView

/-- The guard `!this.consensusCache[from - 1]` of `backfill`.  Heights are
block numbers, so for `from = 0` the JavaScript index `from - 1 = -1` is
never a key of the cache and the lookup yields `undefined`. -/
def cachePred (c : ConsensusView) (from_ : Nat) : Option VoterRow :=
  if from_ = 0 then none else cvFindRow c (from_ - 1)

/-- The `while (cont && from-- > 0)` loop of `backfill`.  The JavaScript
`from--` decrements even when the comparison fails, so when the loop is
entered with `from = 0` the final `return from` yields `-1`; the result
is therefore an `Int`.  `firstKey` is `Object.keys(...)[0]` computed
before the loop. -/
def backfillLoop (voter : String) (f : Option MutateFn) (firstKey : Nat)
    (c : ConsensusView) (from_ : Nat) (cont : Bool) : Int × ConsensusView :=
  if cont = false then ((from_ : Int), c)
  else if h0 : from_ = 0 then ((-1 : Int), c)
  else
    let fr := from_ - 1
    if (cvFindRow c fr).isSome then ((fr : Int), c)
    else
      let c1 := initialiseConsensusView c fr (some voter)
      let r := match f with
        | some g => g c1 fr
        | none => (true, c1)
      if fr == firstKey then ((fr : Int), r.2)
      else backfillLoop voter f firstKey r.2 fr r.1
termination_by from_
decreasing_by simp_wf; omega

/-- `backfill(voter, from, f)` (Node.ts lines 492–524): guard clauses for a
falsy voter, an at-most-one-key cache, and a missing entry at `from - 1`,
then the downward walk. -/
def backfill (c : ConsensusView) (voter : Option String) (from_ : Nat) (f : Option MutateFn) :
    Int × ConsensusView :=
  if isFalsyAddr voter then ((from_ : Int), c)
  else if (cvKeys c).length ≤ 1 then ((from_ : Int), c)
  else if (cachePred c from_).isNone then ((from_ : Int), c)
  else backfillLoop (jsString voter) f ((cvKeys c).headD 0) c from_ true

/-- `delete this.consensusCache[k]`. -/
def cvDelete (c : ConsensusView) (k : Nat) : ConsensusView :=
  c.filter (fun p => !(p.1 == k))

/-- The `list.map((k, i) => { if (i > MAX + 1) delete cache[k] })` loop of
`truncateBlockCache`, walking `list` with running index `i`. -/
def deleteKeysFrom (maxB : Nat) : ConsensusView → List Nat → Nat → ConsensusView
  | c, [], _ => c
  | c, k :: rest, i =>
    deleteKeysFrom maxB (if i > maxB + 1 then cvDelete c k else c) rest (i + 1)

/-- `truncateBlockCache()` with the cache bound as a parameter: reverse the
ascending key list (so it is descending) and delete every key whose index
in that list exceeds `maxB + 1`. -/
def truncateBlockCacheWith (maxB : Nat) (c : ConsensusView) : ConsensusView :=
  deleteKeysFrom maxB c (cvKeys c).reverse 0

/-- Modelled from the spec: `MAX_BLOCKS_IN_CHAIN_CACHE` is imported from
`Chain.ts`, which is not among the sources; the spec (§3, §6) describes it
only as "a configured constant" (the chain display window shared with the
registry).  Every property proved below is established for an arbitrary
value of the bound; this representative value is used only to evaluate
concrete runs. -/
def MAX_BLOCKS_IN_CHAIN_CACHE : Nat := 50

/-- `const MAX_BLOCKS_IN_NODE_CACHE = MAX_BLOCKS_IN_CHAIN_CACHE`. -/
def MAX_BLOCKS_IN_NODE_CACHE : Nat := MAX_BLOCKS_IN_CHAIN_CACHE

/-- `truncateBlockCache()` at the configured bound. -/
def truncateBlockCache (c : ConsensusView) : ConsensusView :=
  truncateBlockCacheWith MAX_BLOCKS_IN_NODE_CACHE c

/-- The named events a node session emits on `this.events`. -/
inductive Event where
  | location
  | disconnect
  | stats
  | finalized
  | hardware
  | block
  | consensusInfo
  | authoritySetChanged (authorities : List String) (setId : Nat) (number : Nat) (hash : String)
deriving Repr, DecidableEq

/-- Modelled from the spec: `MeanList` (MeanList.ts) is not among the
sources.  The spec (§2, §4.4) describes it as a fixed-size rolling log of
sampled metrics (depth 20, §6) whose push reports whether the newly pushed
value changed versus the previous sample. -/
structure MeanList where
  samples : List Int := []
deriving Repr, DecidableEq

/-- Modelled from the spec: push into the rolling log, reporting change
versus the previous sample. -/
def MeanList.push (m : MeanList) (v : Int) : Bool × MeanList :=
  let changed := m.samples.getLast? ≠ some v
  let l := m.samples ++ [v]
  (changed, ⟨if 20 < l.length then l.drop (l.length - 20) else l⟩)

/-- Modelled from the spec: `NumStats` (common package) is not among the
sources.  The spec (§2, §6) describes the block-time tracker as a
fixed-size rolling window over the last 10 samples; only `push` is needed
here. -/
def numStatsPush (l : List Int) (v : Int) : List Int :=
  let l1 := l ++ [v]
  if 10 < l1.length then l1.drop (l1.length - 10) else l1

/-- The socket collaborator's state: whether the node's listeners are
still attached, and whether `close()` / `terminate()` have been called. -/
structure SocketState where
  listeners : Bool
  closed : Bool
  terminated : Bool
deriving Repr, DecidableEq

/-- The mutable state of one `Node` session. -/
structure NodeState where
  address : Option String
  networkState : Option String := none
  lastMessage : Nat
  best : Block := Block.ZERO
  finalized : Block := Block.ZERO
  latency : Nat := 0
  blockTime : Int := 0
  blockTimestamp : Nat := 0
  peers : Int := 0
  txcount : Int := 0
  memory : MeanList := {}
  cpu : MeanList := {}
  upload : MeanList := {}
  download : MeanList := {}
  chartstamps : MeanList := {}
  blockTimes : List Int := []
  lastBlockAt : Option Int := none
  pingStart : Nat := 0
  throttle : Bool := false
  pendingTimers : List Nat := []
  consensusCache : ConsensusView := []
  authorities : List String := []
  authoritySetId : Nat := 0
  socket : SocketState := ⟨true, false, false⟩
deriving Repr, DecidableEq

/-- The field initialisation performed by the `Node` constructor (`now` is
the `timestamp()` taken for `lastMessage`). -/
def mkNode (address : Option String) (now : Nat) : NodeState :=
  { address := address, lastMessage := now }

/-- `system.interval` message fields used by `onSystemInterval`. -/
structure SystemIntervalMsg where
  network_state : Option String := none
  peers : Int := 0
  txcount : Int := 0
  cpu : Option Int := none
  memory : Option Int := none
  bandwidth_upload : Int := 0
  bandwidth_download : Int := 0
  finalized_height : Option Nat := none
  finalized_hash : Option String := none
deriving Repr, DecidableEq

/-- `afg.authority_set` message fields.  `authorities` is the
JSON-encoded string nested inside the message (the producer double-encodes
it). -/
structure AfgAuthoritySetMsg where
  authority_set_id : Nat
  hash : String
  number : Nat
  authorities : String
deriving Repr, DecidableEq

/-- Modelled from the spec: `JSON.stringify` restricted to the shape of
the authority list, a flat array of address strings (§4.5, §6 describe the
field as a JSON-encoded string; the JSON builtins are part of the
JavaScript runtime, not of the sources). -/
def stringifyAuthorities (l : List String) : String :=
  "[" ++ String.intercalate "," (l.map (fun s => "\"" ++ s ++ "\"")) ++ "]"

/-- Modelled from the spec: `JSON.parse` restricted to flat arrays of
plain strings; any other input is a parse failure (`none`), which the
handler treats as the thrown exception. -/
def parseAuthorities (s : String) : Option (List String) :=
  if s = "[]" then some []
  else if s.startsWith "[" && s.endsWith "]" then
    let parts := ((s.drop 1).dropRight 1).splitOn ","
    if parts.all (fun p => p.startsWith "\"" && p.endsWith "\"" && 2 ≤ p.length) then
      some (parts.map (fun p => (p.drop 1).dropRight 1))
    else none
  else none

/-- A best-block observation extracted from a message by `getBestBlock`
(message.ts): height, the message's `ts` date (milliseconds), and the
block hash. -/
structure BestBlockUpd where
  height : Nat
  ts : Int
  best : String
deriving Repr, DecidableEq

/-- The typed payloads dispatched on by `onMessage`; `other` stands for
every message kind without a dedicated handler. -/
inductive Payload where
  | systemInterval (m : SystemIntervalMsg)
  | notifyFinalized (height : Nat) (best : String)
  | afgFinalized (finalizedNumber : Nat) (finalizedHash : String)
  | afgReceivedPrecommit (targetNumber : Nat) (targetHash : String) (voter : String)
  | afgReceivedPrevote (targetNumber : Nat) (targetHash : String) (voter : String)
  | afgAuthoritySet (m : AfgAuthoritySetMsg)
  | other
deriving Repr, DecidableEq

/-- One decoded incoming message.  Modelled from the spec: `getBestBlock`
(message.ts) is not among the sources; per §4.2 a message may carry a
best-block observation, recorded here alongside the dispatched payload. -/
structure Incoming where
  bestUpd : Option BestBlockUpd := none
  payload : Payload
deriving Repr, DecidableEq

/-- `extractVoter`: `message_voter.replace(/"/g, '')` deletes every
double-quote character of the double-encoded voter field, i.e. filters the
quote character out of the string. -/
def extractVoter (s : String) : String :=
  ⟨s.data.filter (fun ch => ch ≠ '"')⟩

/-- `getBlockTime(time)`: elapsed milliseconds since the previous block,
`0` when no block was seen before. -/
def getBlockTime (st : NodeState) (time : Int) : Int :=
  match st.lastBlockAt with
  | none => 0
  | some t0 => time - t0

/-- `updateBestBlock(update)` (Node.ts lines 557–583).  `now` is the
`timestamp()` taken on apply; a coalescing `setTimeout` is modelled by
appending its deadline `now + 1000` to `pendingTimers`. -/
def updateBestBlock (st : NodeState) (now : Nat) (u : BestBlockUpd) : NodeState × List Event :=
  if st.best.hash ≠ u.best ∧ st.best.number ≤ u.height then
    let blockTime := getBlockTime st u.ts
    let st1 : NodeState :=
      { st with best := ⟨u.height, u.best⟩, blockTimestamp := now, lastBlockAt := some u.ts,
                blockTimes := numStatsPush st.blockTimes blockTime, blockTime := blockTime }
    let r : NodeState × List Event :=
      if 100 < blockTime then (st1, [Event.block])
      else if st1.throttle = false then
        ({ st1 with throttle := true, pendingTimers := st1.pendingTimers ++ [now + 1000] }, [])
      else (st1, [])
    let b := backfill r.1.consensusCache r.1.address r.1.best.number none
    ({ r.1 with consensusCache := b.2 }, r.2)
  else (st, [])

/-- `onSystemInterval(message)` (Node.ts lines 279–322). -/
def onSystemInterval (st : NodeState) (now : Nat) (m : SystemIntervalMsg) :
    NodeState × List Event :=
  let st1 := if st.networkState ≠ m.network_state ∧ m.network_state.isSome
    then { st with networkState := m.network_state } else st
  let r1 : NodeState × List Event :=
    if st1.peers ≠ m.peers ∨ st1.txcount ≠ m.txcount
    then ({ st1 with peers := m.peers, txcount := m.txcount }, [Event.stats])
    else (st1, [])
  let r2 : NodeState × List Event :=
    match m.finalized_height, m.finalized_hash with
    | some f, some fh =>
      if r1.1.finalized.number < f
      then ({ r1.1 with finalized := ⟨f, fh⟩ }, [Event.finalized])
      else (r1.1, [])
    | _, _ => (r1.1, [])
  let r3 : NodeState × List Event :=
    match m.cpu, m.memory with
    | some cpuV, some memV =>
      let pc := r2.1.cpu.push cpuV
      let pm := r2.1.memory.push memV
      let pu := r2.1.upload.push m.bandwidth_upload
      let pd := r2.1.download.push m.bandwidth_download
      let ps := r2.1.chartstamps.push (now : Int)
      let st3 := { r2.1 with cpu := pc.2, memory := pm.2, upload := pu.2, download := pd.2,
                             chartstamps := ps.2 }
      if pc.1 || pm.1 || pu.1 || pd.1 || ps.1 then (st3, [Event.hardware]) else (st3, [])
    | _, _ => (r2.1, [])
  (r3.1, r1.2 ++ r2.2 ++ r3.2)

/-- `onNotifyFinalized(message)` (Node.ts lines 341–350).  When the node
has a falsy address the voter record was not created and the field
assignment `cache[height][String(address)].FinalizedHash = best` throws
(`threw = true`): the height row created before the throw is kept, the
event is not emitted. -/
def onNotifyFinalized (st : NodeState) (height : Nat) (best : String) :
    NodeState × List Event × Bool :=
  let c1 := initialiseConsensusView st.consensusCache height st.address
  let key := jsString st.address
  if (cvGetInfo c1 height key).isSome then
    let c2 := cvUpdate c1 height key (fun i => { i with FinalizedHash := some best })
    ({ st with consensusCache := c2 }, [Event.consensusInfo], false)
  else
    ({ st with consensusCache := c1 }, [], true)

/-- `markFinalized(finalizedHeight, finalizedHash)` (Node.ts lines
352–366): set the explicit finality fields and, as the documented
extrapolation, force `Prevote`/`Precommit`.  Throws (second component
`true`) when the voter record is absent (falsy address). -/
def markFinalized (st : NodeState) (finalizedHeight : Nat) (finalizedHash : String) :
    NodeState × Bool :=
  let addr := jsString st.address
  let c1 := initialiseConsensusView st.consensusCache finalizedHeight st.address
  if (cvGetInfo c1 finalizedHeight addr).isSome then
    let c2 := cvUpdate c1 finalizedHeight addr (fun i =>
      { i with Finalized := true, FinalizedHash := some finalizedHash,
               FinalizedHeight := some finalizedHeight, Prevote := true, Precommit := true })
    ({ st with consensusCache := c2 }, false)
  else
    ({ st with consensusCache := c1 }, true)

/-- `markImplicitlyFinalized(finalizedHeight)` (Node.ts lines 368–384) as
a cache transformation.  It is invoked only from the continuation passed
to `backfill` by `onAfgFinalized`, which has initialised the entry first
(and which, as proved below, never actually invokes the continuation). -/
def markImplicitlyFinalizedCV (address : Option String) (c : ConsensusView)
    (finalizedHeight : Nat) : ConsensusView :=
  let addr := jsString address
  let c1 := initialiseConsensusView c finalizedHeight address
  cvUpdate c1 finalizedHeight addr (fun i =>
    { i with Finalized := true, FinalizedHeight := some finalizedHeight,
             ImplicitFinalized := true, Prevote := true, Precommit := true,
             ImplicitPrevote := true, ImplicitPrecommit := true })

/-- `onAfgFinalized(message)` (Node.ts lines 462–485). -/
def onAfgFinalized (st : NodeState) (finalizedNumber : Nat) (finalizedHash : String) :
    NodeState × List Event × Bool :=
  let r := markFinalized st finalizedNumber finalizedHash
  if r.2 then (r.1, [], true)
  else
    let to_ := finalizedNumber
    let addr := jsString st.address
    let mf : MutateFn := fun c i =>
      match cvGetInfo c i addr with
      | some info =>
        if info.Finalized || info.ImplicitFinalized then (false, c)
        else
          let c2 := markImplicitlyFinalizedCV st.address c i
          (true, cvUpdate c2 i addr (fun j => { j with ImplicitPointer := some to_ }))
      | none => (false, c)
    let b := backfill r.1.consensusCache r.1.address to_ (some mf)
    ({ r.1 with consensusCache := b.2 }, [Event.consensusInfo], false)

/-- `onAfgReceivedPrecommit(message)` (Node.ts lines 386–413).  Throws
when the stripped voter string is empty (the record was then not created
and `cache[target][voter].Precommit = true` faults). -/
def onAfgReceivedPrecommit (st : NodeState) (targetNumber : Nat) (_targetHash : String)
    (voterRaw : String) : NodeState × List Event × Bool :=
  let voter := extractVoter voterRaw
  let c1 := initialiseConsensusView st.consensusCache targetNumber (some voter)
  if (cvGetInfo c1 targetNumber voter).isSome then
    let c2 := cvUpdate c1 targetNumber voter (fun i => { i with Precommit := true })
    let from_ := targetNumber
    let mutate : MutateFn := fun c i =>
      match cvGetInfo c i voter with
      | some info =>
        if info.Precommit || info.ImplicitPrecommit then (false, c)
        else (true, cvUpdate c i voter (fun j =>
          { j with ImplicitPrecommit := true, ImplicitPointer := some from_ }))
      | none => (false, c)
    let b := backfill c2 (some voter) from_ (some mutate)
    ({ st with consensusCache := b.2 }, [Event.consensusInfo], false)
  else
    ({ st with consensusCache := c1 }, [], true)

/-- `onAfgReceivedPrevote(message)` (Node.ts lines 415–441), analogous to
the precommit handler. -/
def onAfgReceivedPrevote (st : NodeState) (targetNumber : Nat) (_targetHash : String)
    (voterRaw : String) : NodeState × List Event × Bool :=
  let voter := extractVoter voterRaw
  let c1 := initialiseConsensusView st.consensusCache targetNumber (some voter)
  if (cvGetInfo c1 targetNumber voter).isSome then
    let c2 := cvUpdate c1 targetNumber voter (fun i => { i with Prevote := true })
    let from_ := targetNumber
    let mutate : MutateFn := fun c i =>
      match cvGetInfo c i voter with
      | some info =>
        if info.Prevote || info.ImplicitPrevote then (false, c)
        else (true, cvUpdate c i voter (fun j =>
          { j with ImplicitPrevote := true, ImplicitPointer := some from_ }))
      | none => (false, c)
    let b := backfill c2 (some voter) from_ (some mutate)
    ({ st with consensusCache := b.2 }, [Event.consensusInfo], false)
  else
    ({ st with consensusCache := c1 }, [], true)

/-- `onAfgAuthoritySet(message)` (Node.ts lines 443–460).  A parse failure
of the embedded JSON propagates as an exception (`threw = true`).  Note
that the code compares `this.authoritySetId` but never assigns it. -/
def onAfgAuthoritySet (st : NodeState) (m : AfgAuthoritySetMsg) :
    NodeState × List Event × Bool :=
  match parseAuthorities m.authorities with
  | none => (st, [], true)
  | some auths =>
    let ev := if stringifyAuthorities st.authorities ≠ m.authorities
                 ∨ st.authoritySetId ≠ m.authority_set_id
      then [Event.authoritySetChanged auths m.authority_set_id m.number m.hash]
      else []
    ({ st with authorities := auths }, ev, false)

/-- The `getBestBlock` stage of `onMessage`: apply a carried best-block
observation, if any. -/
def applyBestUpd (st : NodeState) (now : Nat) : Option BestBlockUpd → NodeState × List Event
  | some u => updateBestBlock st now u
  | none => (st, [])

/-- The kind dispatch of `onMessage` (Node.ts lines 257–275). -/
def handlePayload (st : NodeState) (now : Nat) : Payload → NodeState × List Event × Bool
  | .systemInterval m =>
    let r := onSystemInterval st now m
    (r.1, r.2, false)
  | .notifyFinalized h b => onNotifyFinalized st h b
  | .afgFinalized n h => onAfgFinalized st n h
  | .afgReceivedPrecommit n h v => onAfgReceivedPrecommit st n h v
  | .afgReceivedPrevote n h v => onAfgReceivedPrevote st n h v
  | .afgAuthoritySet m => onAfgAuthoritySet st m
  | .other => (st, [], false)

/-- The body of `onMessage(message)` (Node.ts lines 248–277) before the
final `truncateBlockCache()`: update `lastMessage`, apply a carried
best-block observation, and dispatch on the message kind.  The `Bool`
reports an exception escaping the handler (in which case the prune is
skipped by `onMessageWith`). -/
def dispatchMessage (st : NodeState) (now : Nat) (inc : Incoming) :
    NodeState × List Event × Bool :=
  let st1 : NodeState := { st with lastMessage := now }
  let r0 := applyBestUpd st1 now inc.bestUpd
  let r1 := handlePayload r0.1 now inc.payload
  (r1.1, r0.2 ++ r1.2.1, r1.2.2)

/-- `onMessage(message)` with the cache bound as a parameter: dispatch,
then prune the consensus cache (skipped when an exception escaped the
handler, since the JavaScript `truncateBlockCache()` call is then never
reached). -/
def onMessageWith (maxB : Nat) (st : NodeState) (now : Nat) (inc : Incoming) :
    NodeState × List Event × Bool :=
  let r := dispatchMessage st now inc
  if r.2.2 then r
  else ({ r.1 with consensusCache := truncateBlockCacheWith maxB r.1.consensusCache },
        r.2.1, false)

/-- `onMessage(message)` at the configured cache bound. -/
def onMessage (st : NodeState) (now : Nat) (inc : Incoming) : NodeState × List Event × Bool :=
  onMessageWith MAX_BLOCKS_IN_NODE_CACHE st now inc

/-- Fold a list of `(timestamp, message)` pairs through `onMessage`. -/
def runMessages (st : NodeState) (ms : List (Nat × Incoming)) : NodeState :=
  ms.foldl (fun s p => (onMessage s p.1 p.2).1) st

/-- Fold messages through `onMessage`, also reporting whether every
message was handled without an exception. -/
def runMessagesHandled (st : NodeState) (ms : List (Nat × Incoming)) : NodeState × Bool :=
  ms.foldl (fun s p =>
    let r := onMessage s.1 p.1 p.2
    (r.1, s.2 && !r.2.2)) (st, true)

/-- Fold a list of `(now, update)` pairs through `updateBestBlock`. -/
def runBestUpdates (st : NodeState) (us : List (Nat × BestBlockUpd)) : NodeState :=
  us.foldl (fun s p => (updateBestBlock s p.1 p.2).1) st

/-- `TIMEOUT`: one minute of idleness disconnects a session. -/
def TIMEOUT : Nat := 60000

/-- `disconnect()` (Node.ts lines 240–246): remove all socket listeners,
close and terminate the socket, emit `disconnect`. -/
def disconnectNode (st : NodeState) : NodeState × List Event :=
  ({ st with socket := ⟨false, true, true⟩ }, [Event.disconnect])

/-- One externally triggered step of a session: an incoming socket
message, the firing of a scheduled coalescing timer (at its deadline), the
registry's periodic `timeoutCheck(now)` (with the outcome of the
transport-level ping), or a socket close/error notification. -/
inductive NodeStep where
  | message (now : Nat) (inc : Incoming)
  | timerFire (deadline : Nat)
  | timeoutCheck (now : Nat) (pingOk : Bool)
  | socketClose (now : Nat)
  | socketError (now : Nat)
deriving Repr, DecidableEq

/-- The wall-clock time at which a step occurs (a timer fires at its
deadline). -/
def stepTime : NodeStep → Nat
  | .message now _ => now
  | .timerFire d => d
  | .timeoutCheck now _ => now
  | .socketClose now => now
  | .socketError now => now

/-- Run one session step.  Socket `message`/`close`/`error` deliveries
require the listeners to still be attached (they are removed on
disconnect); `timeoutCheck` is invoked directly by the registry; a
scheduled `setTimeout` callback fires regardless (the code never cancels
it) and unconditionally emits `block` and clears the throttle flag. -/
def runStep (st : NodeState) (s : NodeStep) : NodeState × List Event :=
  match s with
  | .message now inc =>
    if st.socket.listeners then
      let r := onMessage st now inc
      (r.1, r.2.1)
    else (st, [])
  | .timerFire d =>
    if st.pendingTimers.contains d then
      ({ st with throttle := false, pendingTimers := st.pendingTimers.erase d }, [Event.block])
    else (st, [])
  | .timeoutCheck now pingOk =>
    if st.lastMessage + TIMEOUT < now then disconnectNode st
    else
      let st1 : NodeState := { st with pingStart := now }
      if pingOk then (st1, []) else disconnectNode st1
  | .socketClose _ =>
    if st.socket.listeners then disconnectNode st else (st, [])
  | .socketError _ =>
    if st.socket.listeners then disconnectNode st else (st, [])

/-- Whether a step reaches the `disconnect()` call from state `st`. -/
def triggersDisconnect (st : NodeState) : NodeStep → Bool
  | .timeoutCheck now pingOk => decide (st.lastMessage + TIMEOUT < now) || !pingOk
  | .socketClose _ => st.socket.listeners
  | .socketError _ => st.socket.listeners
  | _ => false

/-- Run a list of steps, collecting the emitted events stamped with the
time of the step that emitted them. -/
def runTraceEvents (st : NodeState) : List NodeStep → List (Nat × Event)
  | [] => []
  | s :: rest =>
    ((runStep st s).2.map (fun e => (stepTime s, e))) ++ runTraceEvents (runStep st s).1 rest

/-- Validity of a step sequence from state `st` once time `t` has been
reached: step times never decrease, and a timer only fires if it is
actually scheduled. -/
def ValidFrom (st : NodeState) (t : Nat) : List NodeStep → Prop
  | [] => True
  | s :: rest =>
    t ≤ stepTime s ∧
    (∀ d, s = NodeStep.timerFire d → st.pendingTimers.contains d = true) ∧
    ValidFrom (runStep st s).1 (stepTime s) rest

/-- All best-block observations along the run compute a block time of at
most 100 ms (a burst of sub-100 ms updates in the sense of the spec). -/
def SubHundred (st : NodeState) : List NodeStep → Prop
  | [] => True
  | s :: rest =>
    (∀ now inc u, s = NodeStep.message now inc → inc.bestUpd = some u →
      getBlockTime st u.ts ≤ 100) ∧
    SubHundred (runStep st s).1 rest

/-- Deletion of every key in `ks` from the cache: the accumulated effect
of the `truncateBlockCache` loop. -/
def cvDeleteAll (c : ConsensusView) (ks : List Nat) : ConsensusView :=
  c.filter (fun p => !(ks.contains p.1))

/-- A JavaScript object holds at most one value per key; the association
lists built by the session's operations correspondingly never repeat a
height. -/
def KeysNodup (c : ConsensusView) : Prop := (c.map Prod.fst).Nodup

/-- `c'` has an implicit flag set only where `c` already had it: every
implicit flag that is true in `c'` was already true for the same height
and voter in `c`. -/
def implicitsSubset (c c' : ConsensusView) : Prop :=
  ∀ h v i', cvGetInfo c' h v = some i' →
    (i'.ImplicitPrevote = true →
      ∃ i, cvGetInfo c h v = some i ∧ i.ImplicitPrevote = true) ∧
    (i'.ImplicitPrecommit = true →
      ∃ i, cvGetInfo c h v = some i ∧ i.ImplicitPrecommit = true) ∧
    (i'.ImplicitFinalized = true →
      ∃ i, cvGetInfo c h v = some i ∧ i.ImplicitFinalized = true)

/-! ## Helper lemmas -/

/-- Full characterisation of `backfill`: the guard clauses return `from`
unchanged; otherwise the first loop iteration visits `from - 1`, finds the
entry whose existence the third guard just established, and returns
immediately.  In every case the cache is returned unmodified and the
continuation is never consulted. -/
theorem backfill_eq (c : ConsensusView) (voter : Option String) (from_ : Nat)
    (f : Option MutateFn) :
    backfill c voter from_ f =
      if isFalsyAddr voter = false ∧ 1 < (cvKeys c).length ∧ (cachePred c from_).isSome = true
      then (((from_ - 1 : Nat) : Int), c)
      else ((from_ : Int), c) := by
  unfold backfill
  by_cases hv : isFalsyAddr voter
  · simp [hv]
  · by_cases hl : (cvKeys c).length ≤ 1
    · have : ¬ (1 : Nat) < (cvKeys c).length := by omega
      simp [hv, hl, this]
    · by_cases hp : (cachePred c from_).isNone
      · have : ¬ (cachePred c from_).isSome = true := by
          cases h : cachePred c from_ <;> simp_all
        simp [hv, hl, hp, this]
      · have hps : (cachePred c from_).isSome = true := by
          cases h : cachePred c from_ <;> simp_all
        have hne : from_ ≠ 0 := by
          intro h0
          rw [h0] at hps
          simp [cachePred] at hps
        have hrow : (cvFindRow c (from_ - 1)).isSome = true := by
          unfold cachePred at hps
          simpa [hne] using hps
        have hlt : ¬ (cvKeys c).length ≤ 1 := hl
        rw [if_neg (by simp [hv]), if_neg hlt, if_neg (by simp [hp])]
        rw [if_pos ⟨by simp [hv], by omega, hps⟩]
        unfold backfillLoop
        simp [hne, hrow]

/-- A non-empty address string is truthy. -/
theorem isEmpty_eq_false_of_ne (v : String) (hv : v ≠ "") : v.isEmpty = false := by
  cases h : v.isEmpty
  · rfl
  · exact absurd ((String.isEmpty_iff v).mp h) hv

/-! ## Claims about `backfill` (C1, C2, C10) -/

/-- C1: for every call `backfill(voter, from, predicate)`, if `voter` is
absent, or the consensus cache holds at most one distinct height, or there
is no cache entry at height `from - 1` (for `from = 0` the JavaScript
index `-1` is never present), then `backfill` returns `from` unchanged and
the consensus cache is not modified. -/
theorem backfill_guard_noop (c : ConsensusView) (voter : Option String) (from_ : Nat)
    (f : Option MutateFn)
    (h : voter = none ∨ (cvKeys c).length ≤ 1 ∨ cachePred c from_ = none) :
    backfill c voter from_ f = ((from_ : Int), c) := by
  rw [backfill_eq]
  rcases h with h | h | h
  · rw [if_neg]
    rintro ⟨hv, -, -⟩
    rw [h] at hv
    simp [isFalsyAddr] at hv
  · rw [if_neg]
    rintro ⟨-, hl, -⟩
    omega
  · rw [if_neg]
    rintro ⟨-, -, hp⟩
    rw [h] at hp
    simp at hp

theorem backfill_guard_noop_witness :
    ((none : Option String) = none ∨ (cvKeys [(4, [("v", {})]), (2, [("v", {})])]).length ≤ 1 ∨
      cachePred [(4, [("v", {})]), (2, [("v", {})])] 5 = none) ∧
    backfill [(4, [("v", {})]), (2, [("v", {})])] none 5 none =
      ((5 : Int), [(4, [("v", {})]), (2, [("v", {})])]) :=
  ⟨Or.inl rfl, backfill_guard_noop _ none 5 none (Or.inl rfl)⟩

/-- C2: when the preconditions admit the walk (truthy voter, at least two
distinct cached heights, an entry at `from - 1`), the walk starting at
`i = from - 1` stops at the first height that already has a cache entry —
which is `from - 1` itself, the guaranteed-present predecessor — returns
that `i`, and leaves the cache (in particular the pre-existing entry at
`i`) unmodified. -/
theorem backfill_stops_on_existing (c : ConsensusView) (v : String) (from_ : Nat)
    (f : Option MutateFn) (hv : v ≠ "") (hl : 1 < (cvKeys c).length)
    (hp : (cachePred c from_).isSome = true) :
    (cvFindRow c (from_ - 1)).isSome = true ∧
    backfill c (some v) from_ f = (((from_ - 1 : Nat) : Int), c) := by
  have hne : from_ ≠ 0 := by
    intro h0
    rw [h0] at hp
    simp [cachePred] at hp
  refine ⟨by unfold cachePred at hp; simpa [hne] using hp, ?_⟩
  rw [backfill_eq]
  rw [if_pos ⟨by simp [isFalsyAddr, isEmpty_eq_false_of_ne v hv], hl, hp⟩]

theorem backfill_stops_on_existing_witness :
    ("v" ≠ "") ∧ 1 < (cvKeys [(100, [("v", {})]), (103, [("v", {})])]).length ∧
    (cachePred [(100, [("v", {})]), (103, [("v", {})])] 104).isSome = true ∧
    ((cvFindRow [(100, [("v", {})]), (103, [("v", {})])] 103).isSome = true ∧
      backfill [(100, [("v", {})]), (103, [("v", {})])] (some "v") 104 none =
        ((103 : Int), [(100, [("v", {})]), (103, [("v", {})])])) :=
  ⟨by decide, by decide, by decide,
    backfill_stops_on_existing _ "v" 104 none (by decide) (by decide) (by decide)⟩

/-- C10: every call to `backfill` leaves the consensus cache completely
unchanged, and the continuation predicate is never invoked (the result is
independent of it), because the third guard demands an entry at `from - 1`
and the very first loop iteration then hits that entry and returns.  When
the voter is present (a truthy address — the code tests JavaScript
truthiness, so an empty address counts as absent), the cache holds at
least two distinct heights and a row exists at `from - 1`, the call
returns `from - 1`; in every other case it returns `from`.  Consequently
no `Implicit*` flag and no `ImplicitPointer` is ever set via `backfill`. -/
theorem backfill_pure (c : ConsensusView) (voter : Option String) (from_ : Nat)
    (f g : Option MutateFn) :
    (backfill c voter from_ f).2 = c ∧
    backfill c voter from_ f = backfill c voter from_ g ∧
    ((∃ v, voter = some v ∧ v ≠ "") → 1 < (cvKeys c).length →
      (cachePred c from_).isSome = true →
      (backfill c voter from_ f).1 = ((from_ - 1 : Nat) : Int)) ∧
    ((isFalsyAddr voter = true ∨ (cvKeys c).length ≤ 1 ∨ cachePred c from_ = none) →
      (backfill c voter from_ f).1 = (from_ : Int)) := by
  refine ⟨?_, ?_, ?_, ?_⟩
  · rw [backfill_eq]
    split <;> rfl
  · rw [backfill_eq, backfill_eq]
  · rintro ⟨v, rfl, hv⟩ hl hp
    rw [backfill_eq]
    rw [if_pos ⟨by simp [isFalsyAddr, isEmpty_eq_false_of_ne v hv], hl, hp⟩]
  · intro h
    rw [backfill_eq]
    rw [if_neg]
    rintro ⟨h1, h2, h3⟩
    rcases h with h | h | h
    · rw [h] at h1; cases h1
    · omega
    · rw [h] at h3; cases h3

/-- The cache component of a `backfill` result is always the input
cache. -/
theorem backfill_snd (c : ConsensusView) (voter : Option String) (from_ : Nat)
    (f : Option MutateFn) : (backfill c voter from_ f).2 = c := by
  rw [backfill_eq]
  split <;> rfl

/-! ## The pruning loop of `truncateBlockCache` -/

/-- The deletion loop removes exactly the keys whose running index exceeds
`maxB + 1`, i.e. the keys from position `maxB + 2 - i` of the remaining
list onward. -/
theorem deleteKeysFrom_eq (maxB : Nat) (l : List Nat) :
    ∀ (c : ConsensusView) (i : Nat),
      deleteKeysFrom maxB c l i = cvDeleteAll c (l.drop (maxB + 2 - i)) := by
  induction l with
  | nil =>
    intro c i
    simp [deleteKeysFrom, cvDeleteAll]
  | cons k rest ih =>
    intro c i
    by_cases hi : i > maxB + 1
    · rw [deleteKeysFrom, if_pos hi, ih]
      have h0 : maxB + 2 - i = 0 := by omega
      have h1 : maxB + 2 - (i + 1) = 0 := by omega
      rw [h0, h1, List.drop_zero, List.drop_zero]
      unfold cvDeleteAll cvDelete
      rw [List.filter_filter]
      apply List.filter_congr
      intro p _
      simp only [List.contains_cons, Bool.not_or]
      cases h2 : rest.contains p.1 <;> cases h3 : (p.1 == k) <;> rfl
    · rw [deleteKeysFrom, if_neg hi, ih]
      have h0 : maxB + 2 - i = (maxB + 2 - (i + 1)) + 1 := by omega
      rw [h0, List.drop_succ_cons]

/-- `truncateBlockCache` deletes exactly the keys beyond position
`maxB + 2` of the descending key list. -/
theorem truncateWith_eq (maxB : Nat) (c : ConsensusView) :
    truncateBlockCacheWith maxB c = cvDeleteAll c ((cvKeys c).reverse.drop (maxB + 2)) := by
  unfold truncateBlockCacheWith
  rw [deleteKeysFrom_eq, Nat.sub_zero]

/-- Projecting the keys out of a deletion-filtered cache. -/
theorem map_fst_filter_key (ks : List Nat) (c : ConsensusView) :
    (c.filter (fun p => !(ks.contains p.1))).map Prod.fst =
      (c.map Prod.fst).filter (fun k => !(ks.contains k)) := by
  induction c with
  | nil => rfl
  | cons p rest ih =>
    simp only [List.elem_eq_mem] at ih ⊢
    by_cases h : p.1 ∈ ks <;> simp [List.filter_cons, h, ih]

/-- Sorting commutes with filtering. -/
theorem insertionSort_filter_comm (q : Nat → Bool) (l : List Nat) :
    (l.filter q).insertionSort (· ≤ ·) = (l.insertionSort (· ≤ ·)).filter q :=
  List.eq_of_perm_of_sorted
    ((List.perm_insertionSort _ _).trans
      (((List.perm_insertionSort (· ≤ ·) l).filter q).symm))
    (List.sorted_insertionSort _ _)
    ((List.sorted_insertionSort _ l).filter q)

/-- The key view of a bulk deletion. -/
theorem cvKeys_cvDeleteAll (c : ConsensusView) (ks : List Nat) :
    cvKeys (cvDeleteAll c ks) = (cvKeys c).filter (fun k => !(ks.contains k)) := by
  unfold cvKeys cvDeleteAll
  rw [map_fst_filter_key ks c, insertionSort_filter_comm]

/-- Splitting off a disjoint prefix by filtering. -/
theorem filter_not_mem_aux (t d : List Nat) (hd : List.Disjoint t d) :
    (t ++ d).filter (fun k => !(t.contains k)) = d := by
  rw [List.filter_append]
  have h1 : t.filter (fun k => !(t.contains k)) = [] := by
    rw [List.filter_eq_nil_iff]
    intro a ha
    simp [ha]
  have h2 : d.filter (fun k => !(t.contains k)) = d := by
    rw [List.filter_eq_self]
    intro a ha
    have hnotin : a ∉ t := fun hmem => hd hmem ha
    simp [hnotin]
  rw [h1, h2, List.nil_append]

/-- Removing from a duplicate-free list everything that occurs among its
first `m` elements leaves exactly the rest. -/
theorem filter_not_mem_take (l : List Nat) (m : Nat) (h : l.Nodup) :
    l.filter (fun k => !((l.take m).contains k)) = l.drop m := by
  have key := filter_not_mem_aux (l.take m) (l.drop m)
    (List.disjoint_take_drop h (le_refl m))
  rw [List.take_append_drop] at key
  exact key

/-- The keys retained by the prune are exactly the top `maxB + 2` window
of the ascending key list. -/
theorem cvKeys_truncateWith (maxB : Nat) (c : ConsensusView) (h : KeysNodup c) :
    cvKeys (truncateBlockCacheWith maxB c) =
      (cvKeys c).drop ((cvKeys c).length - (maxB + 2)) := by
  have hnd : (cvKeys c).Nodup :=
    ((List.perm_insertionSort (· ≤ ·) (c.map Prod.fst)).nodup_iff).mpr h
  rw [truncateWith_eq, cvKeys_cvDeleteAll]
  have hdrop : (cvKeys c).reverse.drop (maxB + 2) =
      ((cvKeys c).take ((cvKeys c).length - (maxB + 2))).reverse := List.drop_reverse
  rw [hdrop]
  have hpt : ∀ k, (!(((cvKeys c).take ((cvKeys c).length - (maxB + 2))).reverse.contains k)) =
      (!(((cvKeys c).take ((cvKeys c).length - (maxB + 2))).contains k)) := by
    intro k
    by_cases hk : k ∈ (cvKeys c).take ((cvKeys c).length - (maxB + 2)) <;>
      simp [hk]
  rw [List.filter_congr (fun k _ => hpt k)]
  exact filter_not_mem_take _ _ hnd

/-- After the prune at most `maxB + 2` distinct heights remain. -/
theorem length_cvKeys_truncateWith (maxB : Nat) (c : ConsensusView) (h : KeysNodup c) :
    (cvKeys (truncateBlockCacheWith maxB c)).length ≤ maxB + 2 := by
  rw [cvKeys_truncateWith maxB c h, List.length_drop]
  omega

theorem backfill_pure_witness :
    ((backfill [(100, [("v", {})]), (103, [("v", {})])] (some "v") 104 none).2 =
        [(100, [("v", {})]), (103, [("v", {})])] ∧
      backfill [(100, [("v", {})]), (103, [("v", {})])] (some "v") 104 none =
        backfill [(100, [("v", {})]), (103, [("v", {})])] (some "v") 104
          (some (fun cc _ => (true, cc))) ∧
      ((∃ v, (some "v" : Option String) = some v ∧ v ≠ "") →
        1 < (cvKeys [(100, [("v", {})]), (103, [("v", {})])]).length →
        (cachePred [(100, [("v", {})]), (103, [("v", {})])] 104).isSome = true →
        (backfill [(100, [("v", {})]), (103, [("v", {})])] (some "v") 104 none).1 =
          ((103 : Nat) : Int)) ∧
      ((isFalsyAddr (some "v") = true ∨
          (cvKeys [(100, [("v", {})]), (103, [("v", {})])]).length ≤ 1 ∨
          cachePred [(100, [("v", {})]), (103, [("v", {})])] 104 = none) →
        (backfill [(100, [("v", {})]), (103, [("v", {})])] (some "v") 104 none).1 =
          ((104 : Nat) : Int))) :=
  backfill_pure [(100, [("v", {})]), (103, [("v", {})])] (some "v") 104 none
    (some (fun cc _ => (true, cc)))

/-! ## Key uniqueness is preserved by every cache operation -/

/-- A height row is found exactly when the height occurs among the
keys. -/
theorem cvFindRow_isSome_iff (c : ConsensusView) (h : Nat) :
    (cvFindRow c h).isSome = true ↔ h ∈ c.map Prod.fst := by
  unfold cvFindRow
  rw [Option.isSome_map']
  rw [List.find?_isSome]
  constructor
  · rintro ⟨p, hp, he⟩
    have : p.1 = h := by simpa using he
    exact this ▸ List.mem_map_of_mem Prod.fst hp
  · intro hmem
    rcases List.mem_map.mp hmem with ⟨p, hp, he⟩
    exact ⟨p, hp, by simpa using he⟩

/-- Modifying a row in place does not change the key list. -/
theorem map_fst_cvModifyRow (c : ConsensusView) (h : Nat) (f : VoterRow → VoterRow) :
    (cvModifyRow c h f).map Prod.fst = c.map Prod.fst := by
  unfold cvModifyRow
  rw [List.map_map]
  apply List.map_congr_left
  intro p _
  by_cases hp : p.1 = h <;> simp [hp]

/-- `initialiseConsensusView` preserves key uniqueness: it appends a
height only when that height is absent. -/
theorem keysNodup_initialise (c : ConsensusView) (h : Nat) (a : Option String)
    (hn : KeysNodup c) : KeysNodup (initialiseConsensusView c h a) := by
  unfold initialiseConsensusView
  have hc1 : KeysNodup (if (cvFindRow c h).isSome then c else c ++ [(h, [])]) := by
    split
    · exact hn
    next hf =>
      unfold KeysNodup at hn ⊢
      rw [List.map_append]
      apply List.Nodup.append hn (by simp)
      intro x hx hx'
      have : x = h := by simpa using hx'
      subst this
      exact hf ((cvFindRow_isSome_iff c x).mpr hx)
  match a with
  | none => exact hc1
  | some aa =>
    dsimp only
    by_cases haa : aa.isEmpty
    · rw [if_pos haa]
      exact hc1
    · rw [if_neg haa]
      by_cases hg :
          (cvGetInfo (if (cvFindRow c h).isSome then c else c ++ [(h, [])]) h aa).isSome
      · rw [if_pos hg]
        exact hc1
      · rw [if_neg hg]
        unfold KeysNodup
        rw [map_fst_cvModifyRow]
        exact hc1

/-- `cvUpdate` preserves key uniqueness. -/
theorem keysNodup_cvUpdate (c : ConsensusView) (h : Nat) (a : String)
    (f : ConsensusInfo → ConsensusInfo) (hn : KeysNodup c) : KeysNodup (cvUpdate c h a f) := by
  unfold cvUpdate KeysNodup
  rw [map_fst_cvModifyRow]
  exact hn

/-- `updateBestBlock` never changes the consensus cache (its only cache
access is the final mutation-free `backfill`). -/
theorem updateBestBlock_cache (st : NodeState) (now : Nat) (u : BestBlockUpd) :
    (updateBestBlock st now u).1.consensusCache = st.consensusCache := by
  simp only [updateBestBlock, backfill_snd]
  repeat' split
  all_goals rfl

/-- `onSystemInterval` never touches the consensus cache. -/
theorem onSystemInterval_cache (st : NodeState) (now : Nat) (m : SystemIntervalMsg) :
    (onSystemInterval st now m).1.consensusCache = st.consensusCache := by
  simp only [onSystemInterval]
  repeat' split
  all_goals rfl

/-- `onAfgAuthoritySet` never touches the consensus cache. -/
theorem onAfgAuthoritySet_cache (st : NodeState) (m : AfgAuthoritySetMsg) :
    (onAfgAuthoritySet st m).1.consensusCache = st.consensusCache := by
  unfold onAfgAuthoritySet
  split
  · rfl
  · rfl

/-- `onNotifyFinalized` preserves key uniqueness. -/
theorem keysNodup_onNotifyFinalized (st : NodeState) (h : Nat) (b : String)
    (hn : KeysNodup st.consensusCache) :
    KeysNodup (onNotifyFinalized st h b).1.consensusCache := by
  simp only [onNotifyFinalized, backfill_snd]
  split
  · dsimp only
    exact keysNodup_cvUpdate _ _ _ _ (keysNodup_initialise _ _ _ hn)
  · dsimp only
    exact keysNodup_initialise _ _ _ hn

/-- `markFinalized` preserves key uniqueness. -/
theorem keysNodup_markFinalized (st : NodeState) (h : Nat) (fh : String)
    (hn : KeysNodup st.consensusCache) :
    KeysNodup (markFinalized st h fh).1.consensusCache := by
  simp only [markFinalized, backfill_snd]
  split
  · dsimp only
    exact keysNodup_cvUpdate _ _ _ _ (keysNodup_initialise _ _ _ hn)
  · dsimp only
    exact keysNodup_initialise _ _ _ hn

/-- `onAfgFinalized` preserves key uniqueness. -/
theorem keysNodup_onAfgFinalized (st : NodeState) (n : Nat) (h : String)
    (hn : KeysNodup st.consensusCache) :
    KeysNodup (onAfgFinalized st n h).1.consensusCache := by
  simp only [onAfgFinalized, backfill_snd]
  split
  · dsimp only
    exact keysNodup_markFinalized _ _ _ hn
  · dsimp only
    exact keysNodup_markFinalized _ _ _ hn

/-- `onAfgReceivedPrecommit` preserves key uniqueness. -/
theorem keysNodup_onAfgReceivedPrecommit (st : NodeState) (n : Nat) (h v : String)
    (hn : KeysNodup st.consensusCache) :
    KeysNodup (onAfgReceivedPrecommit st n h v).1.consensusCache := by
  simp only [onAfgReceivedPrecommit, backfill_snd]
  split
  · dsimp only
    exact keysNodup_cvUpdate _ _ _ _ (keysNodup_initialise _ _ _ hn)
  · dsimp only
    exact keysNodup_initialise _ _ _ hn

/-- `onAfgReceivedPrevote` preserves key uniqueness. -/
theorem keysNodup_onAfgReceivedPrevote (st : NodeState) (n : Nat) (h v : String)
    (hn : KeysNodup st.consensusCache) :
    KeysNodup (onAfgReceivedPrevote st n h v).1.consensusCache := by
  simp only [onAfgReceivedPrevote, backfill_snd]
  split
  · dsimp only
    exact keysNodup_cvUpdate _ _ _ _ (keysNodup_initialise _ _ _ hn)
  · dsimp only
    exact keysNodup_initialise _ _ _ hn

/-- The best-block stage never changes the consensus cache. -/
theorem applyBestUpd_cache (st : NodeState) (now : Nat) (b : Option BestBlockUpd) :
    (applyBestUpd st now b).1.consensusCache = st.consensusCache := by
  match b with
  | some u => exact updateBestBlock_cache st now u
  | none => rfl

/-- The kind dispatch preserves key uniqueness. -/
theorem keysNodup_handlePayload (st : NodeState) (now : Nat) (pl : Payload)
    (hn : KeysNodup st.consensusCache) :
    KeysNodup (handlePayload st now pl).1.consensusCache := by
  match pl with
  | .systemInterval m =>
    show KeysNodup (onSystemInterval st now m).1.consensusCache
    rw [onSystemInterval_cache]
    exact hn
  | .notifyFinalized h b => exact keysNodup_onNotifyFinalized _ _ _ hn
  | .afgFinalized n h => exact keysNodup_onAfgFinalized _ _ _ hn
  | .afgReceivedPrecommit n h v => exact keysNodup_onAfgReceivedPrecommit st n h v hn
  | .afgReceivedPrevote n h v => exact keysNodup_onAfgReceivedPrevote st n h v hn
  | .afgAuthoritySet m =>
    show KeysNodup (onAfgAuthoritySet st m).1.consensusCache
    rw [onAfgAuthoritySet_cache]
    exact hn
  | .other => exact hn

theorem keysNodup_dispatch (st : NodeState) (now : Nat) (inc : Incoming)
    (hn : KeysNodup st.consensusCache) :
    KeysNodup (dispatchMessage st now inc).1.consensusCache := by
  unfold dispatchMessage
  apply keysNodup_handlePayload
  rw [applyBestUpd_cache]
  exact hn

/-! ## Claim C3: the cache bound after each handled message -/

/-- C3 (amended): after every handled message the prune runs once, and the
consensus view cache retains at most `MAX_BLOCKS_IN_NODE_CACHE + 2`
distinct heights — the deletion condition `i > MAX + 1` on the descending
key list keeps the first `MAX + 2` entries, two more than the claimed
`MAX` — and the retained heights are exactly the highest ones (the top
window of the pre-prune ascending key list), never any other subset.
Stated for every value `maxB` of the configured bound. -/
theorem cache_bound_after_message (maxB : Nat) (st : NodeState) (now : Nat) (inc : Incoming)
    (hn : KeysNodup st.consensusCache)
    (hok : (dispatchMessage st now inc).2.2 = false) :
    cvKeys (onMessageWith maxB st now inc).1.consensusCache =
      (cvKeys (dispatchMessage st now inc).1.consensusCache).drop
        ((cvKeys (dispatchMessage st now inc).1.consensusCache).length - (maxB + 2)) ∧
    (cvKeys (onMessageWith maxB st now inc).1.consensusCache).length ≤ maxB + 2 := by
  have hmid := keysNodup_dispatch st now inc hn
  have hcache : (onMessageWith maxB st now inc).1.consensusCache =
      truncateBlockCacheWith maxB (dispatchMessage st now inc).1.consensusCache := by
    simp only [onMessageWith]
    rw [if_neg (by simp [hok])]
  rw [hcache]
  exact ⟨cvKeys_truncateWith maxB _ hmid, length_cvKeys_truncateWith maxB _ hmid⟩

theorem cache_bound_after_message_witness :
    KeysNodup (({ mkNode (some "a") 0 with
        consensusCache := [(0, []), (1, []), (2, [])] } : NodeState).consensusCache) ∧
    (dispatchMessage ({ mkNode (some "a") 0 with
        consensusCache := [(0, []), (1, []), (2, [])] } : NodeState) 5
        ⟨none, Payload.other⟩).2.2 = false ∧
    (cvKeys (onMessageWith 0 ({ mkNode (some "a") 0 with
          consensusCache := [(0, []), (1, []), (2, [])] } : NodeState) 5
          ⟨none, Payload.other⟩).1.consensusCache =
        (cvKeys (dispatchMessage ({ mkNode (some "a") 0 with
          consensusCache := [(0, []), (1, []), (2, [])] } : NodeState) 5
          ⟨none, Payload.other⟩).1.consensusCache).drop
          ((cvKeys (dispatchMessage ({ mkNode (some "a") 0 with
            consensusCache := [(0, []), (1, []), (2, [])] } : NodeState) 5
            ⟨none, Payload.other⟩).1.consensusCache).length - (0 + 2)) ∧
      (cvKeys (onMessageWith 0 ({ mkNode (some "a") 0 with
          consensusCache := [(0, []), (1, []), (2, [])] } : NodeState) 5
          ⟨none, Payload.other⟩).1.consensusCache).length ≤ 0 + 2) :=
  ⟨by unfold KeysNodup; decide, by decide,
    cache_bound_after_message 0 _ 5 _ (by unfold KeysNodup; decide) (by decide)⟩

/-- C3 is refuted as stated: starting from a fresh session, 51
`notify.finalized` messages at heights 0–50 are all handled without
exception, yet afterwards the consensus cache holds 51 distinct heights,
exceeding the configured maximum `MAX_BLOCKS_IN_NODE_CACHE = 50` — the
prune only trims beyond `MAX + 2` heights. -/
theorem cache_bound_counterexample :
    (runMessagesHandled (mkNode (some "a") 0)
        ((List.range 51).map (fun k => (k, ⟨none, Payload.notifyFinalized k "h"⟩)))).2 = true ∧
    (cvKeys (runMessagesHandled (mkNode (some "a") 0)
        ((List.range 51).map
          (fun k => (k, ⟨none, Payload.notifyFinalized k "h"⟩)))).1.consensusCache).length =
      51 ∧
    MAX_BLOCKS_IN_NODE_CACHE < 51 := by
  refine ⟨?_, ?_, ?_⟩ <;> decide

/-! ## Claim C5: repeated `afg.authority_set` messages -/

/-- C5 fails on the code: `onAfgAuthoritySet` compares
`this.authoritySetId` but never assigns it, so the comparison is forever
against the initial value `0`.  Evaluating the handler on a fresh session
and the message `afg.authority_set (set id 1, authorities "[]")` sent
twice: the `authority-set-changed` event is emitted on the first *and* on
the second occurrence (the stored list is replaced and the stored set id
stays `0` both times), contradicting the claim that the second identical
message emits nothing. -/
theorem authority_set_twice_emits_twice :
    (onAfgAuthoritySet (mkNode (some "a") 0) ⟨1, "h", 1, "[]"⟩).2.1 =
      [Event.authoritySetChanged [] 1 1 "h"] ∧
    (onAfgAuthoritySet (onAfgAuthoritySet (mkNode (some "a") 0) ⟨1, "h", 1, "[]"⟩).1
        ⟨1, "h", 1, "[]"⟩).2.1 = [Event.authoritySetChanged [] 1 1 "h"] ∧
    (onAfgAuthoritySet (onAfgAuthoritySet (mkNode (some "a") 0) ⟨1, "h", 1, "[]"⟩).1
        ⟨1, "h", 1, "[]"⟩).1.authorities = [] ∧
    (onAfgAuthoritySet (onAfgAuthoritySet (mkNode (some "a") 0) ⟨1, "h", 1, "[]"⟩).1
        ⟨1, "h", 1, "[]"⟩).1.authoritySetId = 0 := by
  refine ⟨?_, ?_, ?_, ?_⟩ <;> decide

/-! ## Claim C6: best-block updates -/

/-- The stored best block after `updateBestBlock`. -/
theorem updateBestBlock_best (st : NodeState) (now : Nat) (u : BestBlockUpd) :
    (updateBestBlock st now u).1.best =
      if st.best.hash ≠ u.best ∧ st.best.number ≤ u.height
      then ⟨u.height, u.best⟩ else st.best := by
  by_cases h : st.best.hash ≠ u.best ∧ st.best.number ≤ u.height
  · rw [if_pos h]
    simp only [updateBestBlock, backfill_snd]
    rw [if_pos h]
    repeat' split
    all_goals rfl
  · rw [if_neg h]
    simp only [updateBestBlock]
    rw [if_neg h]

/-- A rejected update leaves the whole state unchanged and emits
nothing. -/
theorem updateBestBlock_not_applied (st : NodeState) (now : Nat) (u : BestBlockUpd)
    (h : ¬ (st.best.hash ≠ u.best ∧ st.best.number ≤ u.height)) :
    updateBestBlock st now u = (st, []) := by
  simp only [updateBestBlock]
  rw [if_neg h]

/-- One update never decreases the stored best height. -/
theorem updateBestBlock_mono (st : NodeState) (now : Nat) (u : BestBlockUpd) :
    st.best.number ≤ (updateBestBlock st now u).1.best.number := by
  rw [updateBestBlock_best]
  split
  · next h => exact h.2
  · exact le_refl _

/-- A whole sequence of updates never decreases the stored best height. -/
theorem runBestUpdates_mono (us : List (Nat × BestBlockUpd)) :
    ∀ (st : NodeState), st.best.number ≤ (runBestUpdates st us).best.number := by
  induction us with
  | nil => intro st; exact le_refl _
  | cons p rest ih =>
    intro st
    exact le_trans (updateBestBlock_mono st p.1 p.2)
      (by simpa [runBestUpdates] using ih (updateBestBlock st p.1 p.2).1)

/-- C6: a best-block update `(height, hash, observedAt)` is applied if and
only if `hash` differs from `best.hash` and `height ≥ best.height` (on
apply the stored best becomes `(height, hash)`, otherwise the state is
returned untouched with no events); consequently over every sequence of
updates the stored `best.height` is non-decreasing, and an applied
same-height update changes only `best.hash`. -/
theorem best_block_update_spec :
    (∀ (st : NodeState) (now : Nat) (u : BestBlockUpd),
      (st.best.hash ≠ u.best ∧ st.best.number ≤ u.height →
        (updateBestBlock st now u).1.best = ⟨u.height, u.best⟩) ∧
      (¬ (st.best.hash ≠ u.best ∧ st.best.number ≤ u.height) →
        updateBestBlock st now u = (st, [])) ∧
      st.best.number ≤ (updateBestBlock st now u).1.best.number ∧
      (st.best.hash ≠ u.best ∧ st.best.number ≤ u.height → u.height = st.best.number →
        (updateBestBlock st now u).1.best.number = st.best.number ∧
        (updateBestBlock st now u).1.best.hash = u.best)) ∧
    (∀ (st : NodeState) (us : List (Nat × BestBlockUpd)),
      st.best.number ≤ (runBestUpdates st us).best.number) := by
  refine ⟨fun st now u => ⟨?_, ?_, ?_, ?_⟩, fun st us => runBestUpdates_mono us st⟩
  · intro h
    rw [updateBestBlock_best, if_pos h]
  · exact updateBestBlock_not_applied st now u
  · exact updateBestBlock_mono st now u
  · intro h hh
    rw [updateBestBlock_best, if_pos h]
    exact ⟨hh, rfl⟩

theorem best_block_update_spec_witness :
    ((mkNode none 0).best.hash ≠ "x" ∧ (mkNode none 0).best.number ≤ 3) ∧
    (updateBestBlock (mkNode none 0) 7 ⟨3, 5, "x"⟩).1.best = ⟨3, "x"⟩ :=
  ⟨⟨by decide, by decide⟩,
    (best_block_update_spec.1 (mkNode none 0) 7 ⟨3, 5, "x"⟩).1 ⟨by decide, by decide⟩⟩

/-! ## Claim C7: the finalized block from `system.interval` -/

/-- The stored finalized block after `onSystemInterval`. -/
theorem onSystemInterval_finalized (st : NodeState) (now : Nat) (m : SystemIntervalMsg) :
    (onSystemInterval st now m).1.finalized =
      (match m.finalized_height, m.finalized_hash with
        | some f, some fh =>
          if st.finalized.number < f then (⟨f, fh⟩ : Block) else st.finalized
        | _, _ => st.finalized) := by
  simp only [onSystemInterval]
  repeat' split
  all_goals simp_all

/-- The `finalized` event is emitted exactly when the replacement
happens. -/
theorem onSystemInterval_finalized_event (st : NodeState) (now : Nat) (m : SystemIntervalMsg) :
    (Event.finalized ∈ (onSystemInterval st now m).2) ↔
      (match m.finalized_height, m.finalized_hash with
        | some f, some _ => st.finalized.number < f
        | _, _ => False) := by
  simp only [onSystemInterval]
  repeat' split
  all_goals simp_all

/-- C7: `system.interval` replaces the stored finalized block only when
both the finalized height and hash are present and the height strictly
exceeds the current `finalized.height`; the height therefore never
decreases and is never overridden by an equal or smaller height, and the
`finalized` event is emitted exactly when the replacement happens. -/
theorem finalized_monotone_spec :
    ∀ (st : NodeState) (now : Nat) (m : SystemIntervalMsg),
      (∀ f fh, m.finalized_height = some f → m.finalized_hash = some fh →
        st.finalized.number < f →
        (onSystemInterval st now m).1.finalized = ⟨f, fh⟩ ∧
        Event.finalized ∈ (onSystemInterval st now m).2) ∧
      ((∀ f fh, m.finalized_height = some f → m.finalized_hash = some fh →
          ¬ st.finalized.number < f) →
        (onSystemInterval st now m).1.finalized = st.finalized ∧
        Event.finalized ∉ (onSystemInterval st now m).2) ∧
      st.finalized.number ≤ (onSystemInterval st now m).1.finalized.number := by
  intro st now m
  refine ⟨?_, ?_, ?_⟩
  · intro f fh hf hfh hlt
    constructor
    · simp only [onSystemInterval_finalized, hf, hfh]
      rw [if_pos hlt]
    · rw [onSystemInterval_finalized_event]
      simp only [hf, hfh]
      exact hlt
  · intro hnone
    constructor
    · simp only [onSystemInterval_finalized]
      match hf : m.finalized_height, hfh : m.finalized_hash with
      | some f, some fh => exact if_neg (hnone f fh hf hfh)
      | some f, none => rfl
      | none, some fh => rfl
      | none, none => rfl
    · rw [onSystemInterval_finalized_event]
      match hf : m.finalized_height, hfh : m.finalized_hash with
      | some f, some fh => exact hnone f fh hf hfh
      | some f, none => exact fun h => h
      | none, some fh => exact fun h => h
      | none, none => exact fun h => h
  · rw [onSystemInterval_finalized]
    match m.finalized_height, m.finalized_hash with
    | some f, some fh =>
      dsimp only
      split
      · next h => exact le_of_lt h
      · exact le_refl _
    | some f, none => exact le_refl _
    | none, some fh => exact le_refl _
    | none, none => exact le_refl _

theorem finalized_monotone_spec_witness :
    ((mkNode none 0) : NodeState).finalized.number < 4 ∧
    (onSystemInterval (mkNode none 0) 9
        { finalized_height := some 4, finalized_hash := some "f" }).1.finalized = ⟨4, "f"⟩ ∧
    Event.finalized ∈ (onSystemInterval (mkNode none 0) 9
        { finalized_height := some 4, finalized_hash := some "f" }).2 :=
  ⟨by decide,
    (finalized_monotone_spec (mkNode none 0) 9
        { finalized_height := some 4, finalized_hash := some "f" }).1 4 "f" rfl rfl
      (by decide)⟩

/-! ## Lookup lemmas for the cache operations (towards claim C4) -/

/-- Row lookup through an in-place row modification. -/
theorem cvFindRow_cvModifyRow (c : ConsensusView) (h' : Nat) (g : VoterRow → VoterRow)
    (h : Nat) :
    cvFindRow (cvModifyRow c h' g) h =
      if h = h' then (cvFindRow c h).map g else cvFindRow c h := by
  induction c with
  | nil => by_cases hh : h = h' <;> simp [cvFindRow, cvModifyRow, hh]
  | cons p rest ih =>
    by_cases hph : p.1 = h
    · by_cases hh : h = h' <;>
        simp [cvFindRow, cvModifyRow, hph, hh, hph.symm ▸ hh]
    · have hne : ¬ (p.1 == h) = true := by simpa using hph
      by_cases hpk : p.1 = h'
      · by_cases hh : h = h' <;>
          simp_all [cvFindRow, cvModifyRow, List.find?_cons]
      · by_cases hh : h = h' <;>
          simp_all [cvFindRow, cvModifyRow, List.find?_cons]

/-- Record lookup through an in-place record modification. -/
theorem rowFind_update (r : VoterRow) (a' : String) (f : ConsensusInfo → ConsensusInfo)
    (v : String) :
    rowFind (r.map (fun p => if p.1 == a' then (p.1, f p.2) else p)) v =
      if v = a' then (rowFind r v).map f else rowFind r v := by
  induction r with
  | nil => by_cases hv : v = a' <;> simp [rowFind, hv]
  | cons p rest ih =>
    by_cases hpv : p.1 = v
    · by_cases hv : v = a' <;>
        simp_all [rowFind]
    · by_cases hpa : p.1 = a' <;> by_cases hv : v = a' <;>
        simp_all [rowFind, List.find?_cons]

/-- Record lookup through `cvUpdate`. -/
theorem cvGetInfo_cvUpdate (c : ConsensusView) (h' : Nat) (a' : String)
    (f : ConsensusInfo → ConsensusInfo) (h : Nat) (v : String) :
    cvGetInfo (cvUpdate c h' a' f) h v =
      if h = h' ∧ v = a' then (cvGetInfo c h v).map f else cvGetInfo c h v := by
  unfold cvUpdate cvGetInfo
  rw [cvFindRow_cvModifyRow]
  by_cases h1 : h = h'
  · by_cases h2 : v = a'
    · rw [if_pos h1, if_pos ⟨h1, h2⟩]
      cases hr : cvFindRow c h with
      | none => rfl
      | some r =>
        show rowFind (r.map (fun p => if p.1 == a' then (p.1, f p.2) else p)) v =
          Option.map f (rowFind r v)
        rw [rowFind_update, if_pos h2]
    · rw [if_pos h1, if_neg (fun hc => h2 hc.2)]
      cases hr : cvFindRow c h with
      | none => rfl
      | some r =>
        show rowFind (r.map (fun p => if p.1 == a' then (p.1, f p.2) else p)) v =
          rowFind r v
        rw [rowFind_update, if_neg h2]
  · rw [if_neg h1, if_neg (fun hc => h1 hc.1)]

/-- Appending a fresh empty height row never changes a record lookup. -/
theorem cvGetInfo_append_empty (c : ConsensusView) (hh : Nat) (h : Nat) (v : String) :
    cvGetInfo (c ++ [(hh, [])]) h v = cvGetInfo c h v := by
  unfold cvGetInfo cvFindRow
  rw [List.find?_append]
  cases hf : c.find? (fun p => p.1 == h) with
  | some p => simp
  | none =>
    by_cases hhh : hh = h <;> simp [List.find?_cons, hhh, rowFind]

/-- Record lookup through appending one voter record to a row. -/
theorem rowFind_append_one (r : VoterRow) (a : String) (j : ConsensusInfo) (v : String) :
    rowFind (r ++ [(a, j)]) v =
      (match rowFind r v with
        | some i => some i
        | none => if v = a then some j else none) := by
  unfold rowFind
  rw [List.find?_append]
  cases hf : r.find? (fun p => p.1 == v) with
  | some p => simp
  | none =>
    by_cases hav : a = v
    · simp [List.find?_cons, hav]
    · have : v ≠ a := fun hc => hav hc.symm
      simp [List.find?_cons, hav, this]

/-- Appending one fresh voter record to one row: every record lookup is
unchanged, except that the looked-up record may be created fresh. -/
theorem cvGetInfo_modify_append (c1 : ConsensusView) (hh : Nat) (a : String) (h : Nat)
    (v : String) :
    cvGetInfo (cvModifyRow c1 hh (fun r => r ++ [(a, ({} : ConsensusInfo))])) h v =
        cvGetInfo c1 h v ∨
      (cvGetInfo c1 h v = none ∧
        cvGetInfo (cvModifyRow c1 hh (fun r => r ++ [(a, ({} : ConsensusInfo))])) h v =
          some ({} : ConsensusInfo)) := by
  unfold cvGetInfo
  rw [cvFindRow_cvModifyRow]
  by_cases h1 : h = hh
  · rw [if_pos h1]
    cases hr : cvFindRow c1 h with
    | none => exact Or.inl rfl
    | some r =>
      show rowFind (r ++ [(a, ({} : ConsensusInfo))]) v = rowFind r v ∨
        (rowFind r v = none ∧
          rowFind (r ++ [(a, ({} : ConsensusInfo))]) v = some ({} : ConsensusInfo))
      rw [rowFind_append_one]
      cases hv : rowFind r v with
      | some i => exact Or.inl rfl
      | none =>
        by_cases hva : v = a
        · exact Or.inr ⟨rfl, by rw [if_pos hva]⟩
        · exact Or.inl (by rw [if_neg hva])
  · rw [if_neg h1]
    exact Or.inl rfl

/-- `initialiseConsensusView` leaves every record lookup unchanged, except
that it may create the looked-up record fresh (with every flag unset). -/
theorem cvGetInfo_initialise (c : ConsensusView) (hh : Nat) (aa : Option String) (h : Nat)
    (v : String) :
    cvGetInfo (initialiseConsensusView c hh aa) h v = cvGetInfo c h v ∨
      (cvGetInfo c h v = none ∧
        cvGetInfo (initialiseConsensusView c hh aa) h v = some ({} : ConsensusInfo)) := by
  unfold initialiseConsensusView
  have hc1 : cvGetInfo (if (cvFindRow c hh).isSome then c else c ++ [(hh, [])]) h v =
      cvGetInfo c h v := by
    split
    · rfl
    · exact cvGetInfo_append_empty c hh h v
  match aa with
  | none => exact Or.inl hc1
  | some a =>
    dsimp only
    by_cases ha : a.isEmpty
    · rw [if_pos ha]
      exact Or.inl hc1
    · rw [if_neg ha]
      by_cases hg :
          (cvGetInfo (if (cvFindRow c hh).isSome then c else c ++ [(hh, [])]) hh a).isSome
      · rw [if_pos hg]
        exact Or.inl hc1
      · rw [if_neg hg]
        rcases cvGetInfo_modify_append
            (if (cvFindRow c hh).isSome then c else c ++ [(hh, [])]) hh a h v with
          heq | ⟨hn, hs⟩
        · exact Or.inl (heq.trans hc1)
        · exact Or.inr ⟨by rw [← hc1]; exact hn, hs⟩

/-- Key-uniform filtering (deletion) through `find?`. -/
theorem find?_filter_key (q : Nat → Bool) (c : ConsensusView) (h : Nat) :
    (c.filter (fun p => q p.1)).find? (fun p => p.1 == h) =
      if q h then c.find? (fun p => p.1 == h) else none := by
  induction c with
  | nil => by_cases hq : q h <;> simp [hq]
  | cons p rest ih =>
    by_cases hph : p.1 = h
    · subst hph
      by_cases hq : q p.1 <;> simp [List.filter_cons, hq, List.find?_cons, ih]
    · have hne : ¬ (p.1 == h) = true := by simpa using hph
      by_cases hq : q p.1 <;> by_cases hqh : q h <;>
        simp_all [List.filter_cons, List.find?_cons, ih] <;> exact ih

/-- A record found after a bulk deletion was present before it. -/
theorem cvGetInfo_cvDeleteAll (c : ConsensusView) (ks : List Nat) (h : Nat) (v : String)
    (i' : ConsensusInfo) (hi : cvGetInfo (cvDeleteAll c ks) h v = some i') :
    cvGetInfo c h v = some i' := by
  unfold cvDeleteAll at hi
  unfold cvGetInfo cvFindRow at hi ⊢
  rw [find?_filter_key (fun k => !(ks.contains k)) c h] at hi
  by_cases hq : (!(ks.contains h)) = true
  · rw [if_pos hq] at hi
    exact hi
  · rw [if_neg hq] at hi
    cases hi

/-! ## Implicit flags are never newly set (towards claim C4) -/

/-- The record found in `c'` was itself already present in `c`: the
strongest possible witness for `implicitsSubset` at one lookup. -/
theorem implicits_here {c : ConsensusView} {h : Nat} {v : String} {i' : ConsensusInfo}
    (hi : cvGetInfo c h v = some i') :
    (i'.ImplicitPrevote = true →
      ∃ i, cvGetInfo c h v = some i ∧ i.ImplicitPrevote = true) ∧
    (i'.ImplicitPrecommit = true →
      ∃ i, cvGetInfo c h v = some i ∧ i.ImplicitPrecommit = true) ∧
    (i'.ImplicitFinalized = true →
      ∃ i, cvGetInfo c h v = some i ∧ i.ImplicitFinalized = true) :=
  ⟨fun ht => ⟨i', ⟨hi, ht⟩⟩, ⟨fun ht => ⟨i', ⟨hi, ht⟩⟩, fun ht => ⟨i', ⟨hi, ht⟩⟩⟩⟩

theorem implicitsSubset_refl (c : ConsensusView) : implicitsSubset c c :=
  fun _ _ _ hi' => implicits_here hi' 

theorem implicitsSubset_trans {a b c : ConsensusView} (h1 : implicitsSubset a b)
    (h2 : implicitsSubset b c) : implicitsSubset a c := by
  intro h v i' hi'
  obtain ⟨p1, p2, p3⟩ := h2 h v i' hi'
  refine ⟨?_, ?_, ?_⟩
  · intro ht
    obtain ⟨j, hj, hjt⟩ := p1 ht
    exact (h1 h v j hj).1 hjt
  · intro ht
    obtain ⟨j, hj, hjt⟩ := p2 ht
    exact (h1 h v j hj).2.1 hjt
  · intro ht
    obtain ⟨j, hj, hjt⟩ := p3 ht
    exact (h1 h v j hj).2.2 hjt

theorem implicitsSubset_of_eq {a b : ConsensusView} (h : b = a) : implicitsSubset a b :=
  h ▸ implicitsSubset_refl a

/-- A fresh record has no implicit flag set. -/
theorem implicitsSubset_initialise (c : ConsensusView) (hh : Nat) (aa : Option String) :
    implicitsSubset c (initialiseConsensusView c hh aa) := by
  intro h v i' hi'
  rcases cvGetInfo_initialise c hh aa h v with heq | ⟨hn, hs⟩
  · rw [heq] at hi'
    exact implicits_here hi'
  · rw [hs] at hi'
    have hii : ({} : ConsensusInfo) = i' := by simpa using hi'
    subst hii
    refine ⟨fun ht => ?_, fun ht => ?_, fun ht => ?_⟩ <;> cases ht

/-- `cvUpdate` with a record transformation that keeps the three implicit
flags never newly sets one. -/
theorem implicitsSubset_cvUpdate (c : ConsensusView) (h' : Nat) (a' : String)
    (f : ConsensusInfo → ConsensusInfo)
    (hf : ∀ i, (f i).ImplicitPrevote = i.ImplicitPrevote ∧
      (f i).ImplicitPrecommit = i.ImplicitPrecommit ∧
      (f i).ImplicitFinalized = i.ImplicitFinalized) :
    implicitsSubset c (cvUpdate c h' a' f) := by
  intro h v i' hi'
  rw [cvGetInfo_cvUpdate] at hi'
  by_cases hc : h = h' ∧ v = a'
  · rw [if_pos hc] at hi'
    cases hg : cvGetInfo c h v with
    | none => rw [hg] at hi'; cases hi'
    | some i =>
      rw [hg] at hi'
      have hii : f i = i' := by simpa using hi'
      subst hii
      obtain ⟨e1, e2, e3⟩ := hf i
      exact ⟨fun ht => ⟨i, ⟨rfl, by rw [← e1]; exact ht⟩⟩,
        ⟨fun ht => ⟨i, ⟨rfl, by rw [← e2]; exact ht⟩⟩,
        fun ht => ⟨i, ⟨rfl, by rw [← e3]; exact ht⟩⟩⟩⟩
  · rw [if_neg hc] at hi'
    exact implicits_here hi' 

/-- The prune never sets implicit flags. -/
theorem implicitsSubset_truncate (maxB : Nat) (c : ConsensusView) :
    implicitsSubset c (truncateBlockCacheWith maxB c) := by
  intro h v i' hi'
  rw [truncateWith_eq] at hi'
  exact implicits_here (cvGetInfo_cvDeleteAll c _ h v i' hi')

/-- `onNotifyFinalized` never sets implicit flags. -/
theorem implicitsSubset_onNotifyFinalized (st : NodeState) (h : Nat) (b : String) :
    implicitsSubset st.consensusCache (onNotifyFinalized st h b).1.consensusCache := by
  simp only [onNotifyFinalized]
  split
  · dsimp only
    exact implicitsSubset_trans (implicitsSubset_initialise _ _ _)
      (implicitsSubset_cvUpdate _ _ _ _ (fun i => ⟨rfl, rfl, rfl⟩))
  · dsimp only
    exact implicitsSubset_initialise _ _ _

/-- `markFinalized` never sets implicit flags (it forces only the explicit
`Finalized`/`Prevote`/`Precommit` and the hash/height fields). -/
theorem implicitsSubset_markFinalized (st : NodeState) (h : Nat) (fh : String) :
    implicitsSubset st.consensusCache (markFinalized st h fh).1.consensusCache := by
  simp only [markFinalized]
  split
  · dsimp only
    exact implicitsSubset_trans (implicitsSubset_initialise _ _ _)
      (implicitsSubset_cvUpdate _ _ _ _ (fun i => ⟨rfl, rfl, rfl⟩))
  · dsimp only
    exact implicitsSubset_initialise _ _ _

/-- `onAfgFinalized` never sets implicit flags: after `markFinalized`, its
`backfill` call returns the cache unchanged without consulting the
continuation that would have set them. -/
theorem implicitsSubset_onAfgFinalized (st : NodeState) (n : Nat) (h : String) :
    implicitsSubset st.consensusCache (onAfgFinalized st n h).1.consensusCache := by
  simp only [onAfgFinalized, backfill_snd]
  split
  · dsimp only
    exact implicitsSubset_markFinalized _ _ _
  · dsimp only
    exact implicitsSubset_markFinalized _ _ _

/-- `onAfgReceivedPrecommit` never sets implicit flags: it sets the
explicit `Precommit`, and its `backfill` call returns the cache unchanged
without consulting the continuation. -/
theorem implicitsSubset_onAfgReceivedPrecommit (st : NodeState) (n : Nat) (h v : String) :
    implicitsSubset st.consensusCache (onAfgReceivedPrecommit st n h v).1.consensusCache := by
  simp only [onAfgReceivedPrecommit, backfill_snd]
  split
  · dsimp only
    exact implicitsSubset_trans (implicitsSubset_initialise _ _ _)
      (implicitsSubset_cvUpdate _ _ _ _ (fun i => ⟨rfl, rfl, rfl⟩))
  · dsimp only
    exact implicitsSubset_initialise _ _ _

/-- `onAfgReceivedPrevote` never sets implicit flags. -/
theorem implicitsSubset_onAfgReceivedPrevote (st : NodeState) (n : Nat) (h v : String) :
    implicitsSubset st.consensusCache (onAfgReceivedPrevote st n h v).1.consensusCache := by
  simp only [onAfgReceivedPrevote, backfill_snd]
  split
  · dsimp only
    exact implicitsSubset_trans (implicitsSubset_initialise _ _ _)
      (implicitsSubset_cvUpdate _ _ _ _ (fun i => ⟨rfl, rfl, rfl⟩))
  · dsimp only
    exact implicitsSubset_initialise _ _ _

/-- The kind dispatch never sets implicit flags. -/
theorem implicitsSubset_handlePayload (st : NodeState) (now : Nat) (pl : Payload) :
    implicitsSubset st.consensusCache (handlePayload st now pl).1.consensusCache := by
  match pl with
  | .systemInterval m =>
    exact implicitsSubset_of_eq (onSystemInterval_cache st now m)
  | .notifyFinalized h b => exact implicitsSubset_onNotifyFinalized _ _ _
  | .afgFinalized n h => exact implicitsSubset_onAfgFinalized _ _ _
  | .afgReceivedPrecommit n h v => exact implicitsSubset_onAfgReceivedPrecommit st n h v
  | .afgReceivedPrevote n h v => exact implicitsSubset_onAfgReceivedPrevote st n h v
  | .afgAuthoritySet m => exact implicitsSubset_of_eq (onAfgAuthoritySet_cache st m)
  | .other => exact implicitsSubset_refl _

/-- The dispatch stage of `onMessage` never sets implicit flags. -/
theorem implicitsSubset_dispatch (st : NodeState) (now : Nat) (inc : Incoming) :
    implicitsSubset st.consensusCache (dispatchMessage st now inc).1.consensusCache := by
  unfold dispatchMessage
  have hx := implicitsSubset_handlePayload
    (applyBestUpd { st with lastMessage := now } now inc.bestUpd).1 now inc.payload
  rw [applyBestUpd_cache] at hx
  exact hx

/-- A whole handled-or-thrown message never sets implicit flags. -/
theorem implicitsSubset_onMessage (maxB : Nat) (st : NodeState) (now : Nat) (inc : Incoming) :
    implicitsSubset st.consensusCache (onMessageWith maxB st now inc).1.consensusCache := by
  by_cases hthrew : (dispatchMessage st now inc).2.2 = true
  · have hsame : onMessageWith maxB st now inc = dispatchMessage st now inc := by
      simp only [onMessageWith]
      rw [if_pos hthrew]
    rw [hsame]
    exact implicitsSubset_dispatch st now inc
  · have htr : (onMessageWith maxB st now inc).1.consensusCache =
        truncateBlockCacheWith maxB (dispatchMessage st now inc).1.consensusCache := by
      simp only [onMessageWith]
      rw [if_neg hthrew]
    rw [htr]
    exact implicitsSubset_trans (implicitsSubset_dispatch st now inc)
      (implicitsSubset_truncate maxB _)

/-- A whole message sequence never sets implicit flags. -/
theorem implicitsSubset_runMessages (ms : List (Nat × Incoming)) :
    ∀ (st : NodeState), implicitsSubset st.consensusCache (runMessages st ms).consensusCache := by
  induction ms with
  | nil => intro st; exact implicitsSubset_refl _
  | cons p rest ih =>
    intro st
    exact implicitsSubset_trans (implicitsSubset_onMessage MAX_BLOCKS_IN_NODE_CACHE st p.1 p.2)
      (by simpa [runMessages] using ih (onMessage st p.1 p.2).1)

/-! ## Claim C4 -/

/-- C4: for every `(height, voter)` record, once the explicit `Prevote`
flag is true (and `ImplicitPrevote` is unset), no later processed message
— in particular no backfill pass triggered by a subsequent message — ever
sets `ImplicitPrevote` for that record; likewise for
`Precommit`/`ImplicitPrecommit` and `Finalized`/`ImplicitFinalized`.  The
proof rests on the stronger fact that message processing never sets an
implicit flag at all: `backfill`, the only code that would, never invokes
its continuation. -/
theorem implicit_never_set_after_explicit (st : NodeState) (ms : List (Nat × Incoming))
    (h : Nat) (v : String) (i i' : ConsensusInfo)
    (hpre : cvGetInfo st.consensusCache h v = some i)
    (hpost : cvGetInfo (runMessages st ms).consensusCache h v = some i') :
    (i.Prevote = true → i.ImplicitPrevote = false → i'.ImplicitPrevote = false) ∧
    (i.Precommit = true → i.ImplicitPrecommit = false → i'.ImplicitPrecommit = false) ∧
    (i.Finalized = true → i.ImplicitFinalized = false → i'.ImplicitFinalized = false) := by
  obtain ⟨p1, p2, p3⟩ := implicitsSubset_runMessages ms st h v i' hpost
  refine ⟨fun _ hmpv => ?_, fun _ hmpc => ?_, fun _ hmf => ?_⟩
  · cases hx : i'.ImplicitPrevote
    · rfl
    · obtain ⟨j, hj, hjt⟩ := p1 hx
      rw [hpre] at hj
      cases hj
      rw [hmpv] at hjt
      cases hjt
  · cases hx : i'.ImplicitPrecommit
    · rfl
    · obtain ⟨j, hj, hjt⟩ := p2 hx
      rw [hpre] at hj
      cases hj
      rw [hmpc] at hjt
      cases hjt
  · cases hx : i'.ImplicitFinalized
    · rfl
    · obtain ⟨j, hj, hjt⟩ := p3 hx
      rw [hpre] at hj
      cases hj
      rw [hmf] at hjt
      cases hjt

theorem implicit_never_set_after_explicit_witness :
    cvGetInfo [(5, [("v", { Prevote := true })])] 5 "v" = some { Prevote := true } ∧
    cvGetInfo (runMessages
        ({ mkNode (some "a") 0 with
            consensusCache := [(5, [("v", { Prevote := true })])] } : NodeState)
        [(3, ⟨none, Payload.afgReceivedPrevote 7 "t" "\"v\""⟩)]).consensusCache 5 "v" =
      some { Prevote := true } ∧
    (({ Prevote := true } : ConsensusInfo).Prevote = true →
      ({ Prevote := true } : ConsensusInfo).ImplicitPrevote = false →
      ({ Prevote := true } : ConsensusInfo).ImplicitPrevote = false) :=
  ⟨by decide, by decide,
    (implicit_never_set_after_explicit
      ({ mkNode (some "a") 0 with
          consensusCache := [(5, [("v", { Prevote := true })])] } : NodeState)
      [(3, ⟨none, Payload.afgReceivedPrevote 7 "t" "\"v\""⟩)] 5 "v"
      { Prevote := true } { Prevote := true } (by decide) (by decide)).1⟩

/-! ## Event and timer bookkeeping of the handlers (towards C8 and C9) -/

/-- `updateBestBlock` emits nothing or a single `block` event. -/
theorem updateBestBlock_events (st : NodeState) (now : Nat) (u : BestBlockUpd) :
    (updateBestBlock st now u).2 = [] ∨ (updateBestBlock st now u).2 = [Event.block] := by
  simp only [updateBestBlock, backfill_snd]
  repeat' split
  all_goals simp

/-- Every event of the kind dispatch is a `stats`, `finalized`,
`hardware`, `consensus-info` or `authority-set-changed` event — never a
`disconnect` and never a `block`. -/
theorem handlePayload_no_disconnect_no_block (st : NodeState) (now : Nat) (pl : Payload) :
    ∀ e ∈ (handlePayload st now pl).2.1, e ≠ Event.disconnect ∧ e ≠ Event.block := by
  match pl with
  | .systemInterval m =>
    show ∀ e ∈ (onSystemInterval st now m).2, _
    simp only [onSystemInterval]
    repeat' split
    all_goals intro e he
    all_goals simp_all
    all_goals rcases he with he | he | he
    all_goals simp_all
  | .notifyFinalized h b =>
    show ∀ e ∈ (onNotifyFinalized st h b).2.1, _
    simp only [onNotifyFinalized]
    split
    all_goals intro e he
    all_goals simp_all
  | .afgFinalized n h =>
    show ∀ e ∈ (onAfgFinalized st n h).2.1, _
    simp only [onAfgFinalized]
    split
    all_goals intro e he
    all_goals simp_all
  | .afgReceivedPrecommit n h v =>
    show ∀ e ∈ (onAfgReceivedPrecommit st n h v).2.1, _
    simp only [onAfgReceivedPrecommit]
    split
    all_goals intro e he
    all_goals simp_all
  | .afgReceivedPrevote n h v =>
    show ∀ e ∈ (onAfgReceivedPrevote st n h v).2.1, _
    simp only [onAfgReceivedPrevote]
    split
    all_goals intro e he
    all_goals simp_all
  | .afgAuthoritySet m =>
    show ∀ e ∈ (onAfgAuthoritySet st m).2.1, _
    simp only [onAfgAuthoritySet]
    repeat' split
    all_goals intro e he
    all_goals simp_all
  | .other =>
    intro e he
    simp_all [handlePayload]

/-- The kind dispatch never touches the coalescing state. -/
theorem handlePayload_timers (st : NodeState) (now : Nat) (pl : Payload) :
    (handlePayload st now pl).1.throttle = st.throttle ∧
    (handlePayload st now pl).1.pendingTimers = st.pendingTimers := by
  match pl with
  | .systemInterval m =>
    show (onSystemInterval st now m).1.throttle = _ ∧ (onSystemInterval st now m).1.pendingTimers = _
    simp only [onSystemInterval]
    repeat' split
    all_goals exact ⟨rfl, rfl⟩
  | .notifyFinalized h b =>
    show (onNotifyFinalized st h b).1.throttle = _ ∧ (onNotifyFinalized st h b).1.pendingTimers = _
    simp only [onNotifyFinalized]
    split
    all_goals exact ⟨rfl, rfl⟩
  | .afgFinalized n h =>
    show (onAfgFinalized st n h).1.throttle = _ ∧ (onAfgFinalized st n h).1.pendingTimers = _
    have hm : (markFinalized st n h).1.throttle = st.throttle ∧
        (markFinalized st n h).1.pendingTimers = st.pendingTimers := by
      simp only [markFinalized]
      split
      all_goals exact ⟨rfl, rfl⟩
    simp only [onAfgFinalized]
    split
    all_goals exact hm
  | .afgReceivedPrecommit n h v =>
    show (onAfgReceivedPrecommit st n h v).1.throttle = _ ∧
      (onAfgReceivedPrecommit st n h v).1.pendingTimers = _
    simp only [onAfgReceivedPrecommit]
    split
    all_goals exact ⟨rfl, rfl⟩
  | .afgReceivedPrevote n h v =>
    show (onAfgReceivedPrevote st n h v).1.throttle = _ ∧
      (onAfgReceivedPrevote st n h v).1.pendingTimers = _
    simp only [onAfgReceivedPrevote]
    split
    all_goals exact ⟨rfl, rfl⟩
  | .afgAuthoritySet m =>
    show (onAfgAuthoritySet st m).1.throttle = _ ∧ (onAfgAuthoritySet st m).1.pendingTimers = _
    simp only [onAfgAuthoritySet]
    repeat' split
    all_goals exact ⟨rfl, rfl⟩
  | .other => exact ⟨rfl, rfl⟩

/-- The events of a whole message are the best-block stage's followed by
the kind dispatch's. -/
theorem onMessage_events (maxB : Nat) (st : NodeState) (now : Nat) (inc : Incoming) :
    (onMessageWith maxB st now inc).2.1 =
      (applyBestUpd { st with lastMessage := now } now inc.bestUpd).2 ++
        (handlePayload (applyBestUpd { st with lastMessage := now } now inc.bestUpd).1 now
          inc.payload).2.1 := by
  simp only [onMessageWith]
  split
  · rfl
  · rfl

/-- The coalescing state of a whole message is that of its best-block
stage. -/
theorem onMessage_timers (maxB : Nat) (st : NodeState) (now : Nat) (inc : Incoming) :
    (onMessageWith maxB st now inc).1.throttle =
      (applyBestUpd { st with lastMessage := now } now inc.bestUpd).1.throttle ∧
    (onMessageWith maxB st now inc).1.pendingTimers =
      (applyBestUpd { st with lastMessage := now } now inc.bestUpd).1.pendingTimers := by
  have hp := handlePayload_timers
    (applyBestUpd { st with lastMessage := now } now inc.bestUpd).1 now inc.payload
  simp only [onMessageWith]
  split
  · exact hp
  · exact hp

/-- The best-block stage emits nothing or a single `block` event. -/
theorem applyBestUpd_events (st : NodeState) (now : Nat) (b : Option BestBlockUpd) :
    (applyBestUpd st now b).2 = [] ∨ (applyBestUpd st now b).2 = [Event.block] := by
  match b with
  | none => exact Or.inl rfl
  | some u => exact updateBestBlock_events st now u

/-- A whole message never emits `disconnect`. -/
theorem onMessage_no_disconnect (maxB : Nat) (st : NodeState) (now : Nat) (inc : Incoming) :
    Event.disconnect ∉ (onMessageWith maxB st now inc).2.1 := by
  rw [onMessage_events]
  intro hmem
  rcases List.mem_append.mp hmem with hm | hm
  · rcases applyBestUpd_events { st with lastMessage := now } now inc.bestUpd with he | he <;>
      rw [he] at hm <;> simp at hm
  · exact (handlePayload_no_disconnect_no_block _ now inc.payload _ hm).1 rfl

/-! ## Claim C9: disconnect behaviour -/

/-- C9 (amended): every step that reaches `disconnect()` — a timeout
check past the one-minute idle limit, a timeout check whose transport ping
fails, or a socket close/error notification while the listeners are still
attached — releases all transport listeners, closes and forcibly
terminates the connection, and emits exactly one `disconnect` event; every
other step emits none.  `disconnect` is however not idempotent across a
session: nothing records that a disconnect already happened, so each
further triggering step (e.g. each repeated timeout check past the idle
limit) emits the event again; only the socket-notification path is silenced,
because the listeners were removed. -/
theorem disconnect_characterisation (st : NodeState) (s : NodeStep) :
    ((runStep st s).2.count Event.disconnect =
      if triggersDisconnect st s = true then 1 else 0) ∧
    (triggersDisconnect st s = true →
      (runStep st s).1.socket = ⟨false, true, true⟩) := by
  cases s with
  | message now inc =>
    refine ⟨?_, fun ht => nomatch ht⟩
    have h0 : triggersDisconnect st (NodeStep.message now inc) = false := rfl
    rw [h0, if_neg (by simp)]
    simp only [runStep]
    split
    · exact List.count_eq_zero.mpr (onMessage_no_disconnect MAX_BLOCKS_IN_NODE_CACHE st now inc)
    · rfl
  | timerFire d =>
    refine ⟨?_, fun ht => nomatch ht⟩
    have h0 : triggersDisconnect st (NodeStep.timerFire d) = false := rfl
    rw [h0, if_neg (by simp)]
    simp only [runStep]
    split <;> simp
  | timeoutCheck now pingOk =>
    constructor
    · simp only [runStep, triggersDisconnect, disconnectNode]
      by_cases hto : st.lastMessage + TIMEOUT < now
      · rw [if_pos hto]
        simp [hto]
      · rw [if_neg hto]
        cases pingOk <;> simp [hto]
    · intro ht
      simp only [triggersDisconnect] at ht
      simp only [runStep, disconnectNode]
      by_cases hto : st.lastMessage + TIMEOUT < now
      · rw [if_pos hto]
      · rw [if_neg hto]
        have hp : pingOk = false := by
          rcases Bool.or_eq_true_iff.mp ht with hx | hx
          · exact absurd (of_decide_eq_true hx) hto
          · simpa using hx
        rw [hp]
        rfl
  | socketClose now =>
    constructor
    · simp only [runStep, triggersDisconnect, disconnectNode]
      split <;> simp_all
    · intro ht
      simp only [triggersDisconnect] at ht
      simp only [runStep, disconnectNode]
      rw [if_pos ht]
  | socketError now =>
    constructor
    · simp only [runStep, triggersDisconnect, disconnectNode]
      split <;> simp_all
    · intro ht
      simp only [triggersDisconnect] at ht
      simp only [runStep, disconnectNode]
      rw [if_pos ht]

theorem disconnect_characterisation_witness :
    triggersDisconnect (mkNode none 0) (NodeStep.timeoutCheck 60002 true) = true ∧
    (runStep (mkNode none 0) (NodeStep.timeoutCheck 60002 true)).2.count Event.disconnect =
      (if triggersDisconnect (mkNode none 0) (NodeStep.timeoutCheck 60002 true) = true
        then 1 else 0) ∧
    (runStep (mkNode none 0) (NodeStep.timeoutCheck 60002 true)).1.socket =
      ⟨false, true, true⟩ :=
  ⟨by decide,
    (disconnect_characterisation (mkNode none 0) (NodeStep.timeoutCheck 60002 true)).1,
    (disconnect_characterisation (mkNode none 0) (NodeStep.timeoutCheck 60002 true)).2
      (by decide)⟩

/-- C9 is refuted as stated: a session that last heard from its node at
time 0 and receives two registry timeout checks at times 60002 and 60003
(both past the one-minute idle limit) emits the `disconnect` event twice,
not exactly once. -/
theorem disconnect_twice_counterexample :
    ((runTraceEvents (mkNode none 0)
        [NodeStep.timeoutCheck 60002 true, NodeStep.timeoutCheck 60003 true]).filter
      (fun p => p.2 == Event.disconnect)).length = 2 := by
  decide

/-! ## Coalescing behaviour of best-block events (towards claim C8) -/

/-- The three emission regimes of an applied best-block update: immediate
`block` event above the 100 ms threshold; otherwise schedule the one-second
coalescing timer when none is pending; otherwise do nothing. -/
theorem updateBestBlock_timer_cases (st : NodeState) (now : Nat) (u : BestBlockUpd)
    (hcond : st.best.hash ≠ u.best ∧ st.best.number ≤ u.height) :
    (100 < getBlockTime st u.ts →
      (updateBestBlock st now u).2 = [Event.block] ∧
      (updateBestBlock st now u).1.throttle = st.throttle ∧
      (updateBestBlock st now u).1.pendingTimers = st.pendingTimers) ∧
    (getBlockTime st u.ts ≤ 100 → st.throttle = false →
      (updateBestBlock st now u).2 = [] ∧
      (updateBestBlock st now u).1.throttle = true ∧
      (updateBestBlock st now u).1.pendingTimers = st.pendingTimers ++ [now + 1000]) ∧
    (getBlockTime st u.ts ≤ 100 → st.throttle = true →
      (updateBestBlock st now u).2 = [] ∧
      (updateBestBlock st now u).1.throttle = st.throttle ∧
      (updateBestBlock st now u).1.pendingTimers = st.pendingTimers) := by
  simp only [updateBestBlock, backfill_snd]
  rw [if_pos hcond]
  refine ⟨?_, ?_, ?_⟩
  · intro hbt
    rw [if_pos hbt]
    exact ⟨rfl, rfl, rfl⟩
  · intro hbt hth
    rw [if_neg (by omega : ¬ 100 < getBlockTime st u.ts)]
    split
    · exact ⟨rfl, rfl, rfl⟩
    · next hth2 =>
      exact absurd (show st.throttle = false from hth) hth2
  · intro hbt hth
    rw [if_neg (by omega : ¬ 100 < getBlockTime st u.ts)]
    split
    · next hth2 =>
      have h2 : st.throttle = false := hth2
      exact absurd (hth.symm.trans h2) (by simp)
    · exact ⟨rfl, rfl, rfl⟩

/-- A sub-100 ms best-block stage never emits `block`, and either leaves
the coalescing state alone or — only when no timer was pending — starts
the single one-second timer. -/
theorem applyBestUpd_coalesce (st : NodeState) (now : Nat) (b : Option BestBlockUpd)
    (hbt : ∀ u, b = some u → getBlockTime st u.ts ≤ 100) :
    Event.block ∉ (applyBestUpd st now b).2 ∧
    ((applyBestUpd st now b).1.throttle = st.throttle ∧
        (applyBestUpd st now b).1.pendingTimers = st.pendingTimers ∨
      st.throttle = false ∧ (applyBestUpd st now b).1.throttle = true ∧
        (applyBestUpd st now b).1.pendingTimers = st.pendingTimers ++ [now + 1000]) := by
  match b with
  | none => exact ⟨by simp [applyBestUpd], Or.inl ⟨rfl, rfl⟩⟩
  | some u =>
    show Event.block ∉ (updateBestBlock st now u).2 ∧
      ((updateBestBlock st now u).1.throttle = st.throttle ∧
          (updateBestBlock st now u).1.pendingTimers = st.pendingTimers ∨
        st.throttle = false ∧ (updateBestBlock st now u).1.throttle = true ∧
          (updateBestBlock st now u).1.pendingTimers = st.pendingTimers ++ [now + 1000])
    by_cases hcond : st.best.hash ≠ u.best ∧ st.best.number ≤ u.height
    · have hc := updateBestBlock_timer_cases st now u hcond
      have hb := hbt u rfl
      cases hth : st.throttle
      · obtain ⟨he, h1, h2⟩ := hc.2.1 hb hth
        exact ⟨by rw [he]; simp, Or.inr ⟨rfl, h1, h2⟩⟩
      · obtain ⟨he, h1, h2⟩ := hc.2.2 hb hth
        exact ⟨by rw [he]; simp, Or.inl ⟨h1.trans hth, h2⟩⟩
    · rw [updateBestBlock_not_applied st now u hcond]
      exact ⟨by simp, Or.inl ⟨rfl, rfl⟩⟩

/-- A message step under the sub-100 ms hypothesis: no `block` event, and
the coalescing state is either untouched or a single timer is started from
the idle state. -/
theorem runStep_message_coalesce (st : NodeState) (now : Nat) (inc : Incoming)
    (hbt : ∀ u, inc.bestUpd = some u → getBlockTime st u.ts ≤ 100) :
    Event.block ∉ (runStep st (NodeStep.message now inc)).2 ∧
    ((runStep st (NodeStep.message now inc)).1.throttle = st.throttle ∧
        (runStep st (NodeStep.message now inc)).1.pendingTimers = st.pendingTimers ∨
      st.throttle = false ∧ (runStep st (NodeStep.message now inc)).1.throttle = true ∧
        (runStep st (NodeStep.message now inc)).1.pendingTimers =
          st.pendingTimers ++ [now + 1000]) := by
  cases hl : st.socket.listeners
  · have hrs : runStep st (NodeStep.message now inc) = (st, []) := by
      simp only [runStep]
      rw [if_neg (by simp [hl])]
    rw [hrs]
    exact ⟨by simp, Or.inl ⟨rfl, rfl⟩⟩
  · have hrs : runStep st (NodeStep.message now inc) =
        ((onMessage st now inc).1, (onMessage st now inc).2.1) := by
      simp only [runStep]
      rw [if_pos hl]
    rw [hrs]
    have hev := onMessage_events MAX_BLOCKS_IN_NODE_CACHE st now inc
    have htm := onMessage_timers MAX_BLOCKS_IN_NODE_CACHE st now inc
    have hac := applyBestUpd_coalesce { st with lastMessage := now } now inc.bestUpd
      (fun u hu => hbt u hu)
    constructor
    · show Event.block ∉ (onMessage st now inc).2.1
      rw [show (onMessage st now inc) =
        onMessageWith MAX_BLOCKS_IN_NODE_CACHE st now inc from rfl, hev]
      intro hmem
      rcases List.mem_append.mp hmem with hm | hm
      · exact hac.1 hm
      · exact (handlePayload_no_disconnect_no_block _ now inc.payload _ hm).2 rfl
    · show (onMessage st now inc).1.throttle = st.throttle ∧
          (onMessage st now inc).1.pendingTimers = st.pendingTimers ∨
        st.throttle = false ∧ (onMessage st now inc).1.throttle = true ∧
          (onMessage st now inc).1.pendingTimers = st.pendingTimers ++ [now + 1000]
      rw [show (onMessage st now inc) =
        onMessageWith MAX_BLOCKS_IN_NODE_CACHE st now inc from rfl]
      rw [htm.1, htm.2]
      rcases hac.2 with ⟨h1, h2⟩ | ⟨h0, h1, h2⟩
      · exact Or.inl ⟨h1, h2⟩
      · exact Or.inr ⟨h0, h1, h2⟩

/-- Steps other than messages and timer fires neither emit `block` nor
touch the coalescing state. -/
theorem runStep_other_coalesce (st : NodeState) (s : NodeStep)
    (hs : (∀ now inc, s ≠ NodeStep.message now inc) ∧ (∀ d, s ≠ NodeStep.timerFire d)) :
    Event.block ∉ (runStep st s).2 ∧ (runStep st s).1.throttle = st.throttle ∧
      (runStep st s).1.pendingTimers = st.pendingTimers := by
  cases s with
  | message now inc => exact absurd rfl (hs.1 now inc)
  | timerFire d => exact absurd rfl (hs.2 d)
  | timeoutCheck now pingOk =>
    simp only [runStep, disconnectNode]
    repeat' split
    all_goals exact ⟨by simp, ⟨rfl, rfl⟩⟩
  | socketClose now =>
    simp only [runStep, disconnectNode]
    split
    all_goals exact ⟨by simp, ⟨rfl, rfl⟩⟩
  | socketError now =>
    simp only [runStep, disconnectNode]
    split
    all_goals exact ⟨by simp, ⟨rfl, rfl⟩⟩

/-- A fired pending timer emits exactly one `block` event, clears the
pending flag, and removes the timer. -/
theorem runStep_timer_fire (st : NodeState) (d : Nat)
    (hd : st.pendingTimers.contains d = true) :
    (runStep st (NodeStep.timerFire d)).2 = [Event.block] ∧
    (runStep st (NodeStep.timerFire d)).1.throttle = false ∧
    (runStep st (NodeStep.timerFire d)).1.pendingTimers = st.pendingTimers.erase d := by
  simp only [runStep]
  rw [if_pos hd]
  exact ⟨rfl, rfl, rfl⟩

/-- Time-stamping a block-free event batch contributes nothing to the
`block` filter. -/
theorem filter_block_map_nil {ev : List Event} {t : Nat} (h : Event.block ∉ ev) :
    (ev.map (fun e => (t, e))).filter (fun p => p.2 == Event.block) = [] := by
  rw [List.filter_eq_nil_iff]
  rintro ⟨tt, e⟩ hmem hbeq
  simp only [List.mem_map] at hmem
  obtain ⟨e0, he0, heq⟩ := hmem
  have hsnd : e0 = e := by
    have h2 := congrArg Prod.snd heq
    simpa using h2
  have hb : e = Event.block := by simpa using hbeq
  apply h
  rw [← hb, ← hsnd]
  exact he0

/-- Along any valid, sub-100 ms trace the emission times of `block`
events are spaced at least 1000 ms apart (stated with a sentinel
`lastEmit` lower bound and the coalescing-state invariant). -/
theorem coalesced_chain (steps : List NodeStep) :
    ∀ (st : NodeState) (tcur lastEmit : Nat),
      ValidFrom st tcur steps → SubHundred st steps →
      (st.pendingTimers = [] ∧ st.throttle = false ∨
        ∃ d0, st.pendingTimers = [d0] ∧ st.throttle = true ∧ lastEmit + 1000 ≤ d0) →
      lastEmit ≤ tcur →
      List.Chain' (fun a b => a + 1000 ≤ b)
        (lastEmit ::
          ((runTraceEvents st steps).filter (fun p => p.2 == Event.block)).map Prod.fst) := by
  induction steps with
  | nil =>
    intro st tcur lastEmit _ _ _ _
    simp [runTraceEvents]
  | cons s rest ih =>
    intro st tcur lastEmit hv hsub hinv hle
    obtain ⟨ht, hfire, hv'⟩ := hv
    obtain ⟨hbt, hsub'⟩ := hsub
    have hsplit : runTraceEvents st (s :: rest) =
        ((runStep st s).2.map (fun e => (stepTime s, e))) ++
          runTraceEvents (runStep st s).1 rest := rfl
    rw [hsplit, List.filter_append, List.map_append]
    cases s with
    | message now inc =>
      have hc := runStep_message_coalesce st now inc (fun u hu => hbt now inc u rfl hu)
      rw [filter_block_map_nil hc.1, List.map_nil, List.nil_append]
      rcases hc.2 with ⟨h1, h2⟩ | ⟨h0, h1, h2⟩
      · apply ih _ (stepTime (NodeStep.message now inc)) lastEmit hv' hsub'
        · rcases hinv with ⟨hp, hh⟩ | ⟨d0, hp, hh, hd⟩
          · exact Or.inl ⟨h2.trans hp, h1.trans hh⟩
          · exact Or.inr ⟨d0, h2.trans hp, h1.trans hh, hd⟩
        · exact le_trans hle ht
      · rcases hinv with ⟨hp, hh⟩ | ⟨d0, hp, hh, hd⟩
        · apply ih _ (stepTime (NodeStep.message now inc)) lastEmit hv' hsub'
          · refine Or.inr ⟨now + 1000, ?_, h1, ?_⟩
            · rw [h2, hp]
              rfl
            · have hlnow : lastEmit ≤ now := le_trans hle ht
              omega
          · exact le_trans hle ht
        · rw [hh] at h0
          cases h0
    | timerFire d =>
      have hcont := hfire d rfl
      rcases hinv with ⟨hp, hh⟩ | ⟨d0, hp, hh, hd⟩
      · rw [hp] at hcont
        cases hcont
      · have hdd : d = d0 := by
          rw [hp] at hcont
          simpa using hcont
        subst hdd
        have hrt := runStep_timer_fire st d (by rw [hp]; simp)
        rw [hrt.1]
        rw [show (([Event.block]).map
            (fun e => (stepTime (NodeStep.timerFire d), e))).filter
            (fun p => p.2 == Event.block) = [(d, Event.block)] from by simp [stepTime]]
        rw [show ([((d : Nat), Event.block)].map Prod.fst) ++
            ((runTraceEvents (runStep st (NodeStep.timerFire d)).1 rest).filter
              (fun p => p.2 == Event.block)).map Prod.fst =
            d :: ((runTraceEvents (runStep st (NodeStep.timerFire d)).1 rest).filter
              (fun p => p.2 == Event.block)).map Prod.fst from rfl]
        rw [List.chain'_cons]
        constructor
        · exact hd
        · apply ih _ (stepTime (NodeStep.timerFire d)) d hv' hsub'
          · refine Or.inl ⟨?_, hrt.2.1⟩
            rw [hrt.2.2, hp]
            simp
          · exact le_refl d
    | timeoutCheck now pingOk =>
      have hc := runStep_other_coalesce st (NodeStep.timeoutCheck now pingOk)
        (by refine ⟨fun _ _ h => ?_, fun _ h => ?_⟩ <;> cases h)
      rw [filter_block_map_nil hc.1, List.map_nil, List.nil_append]
      apply ih _ (stepTime (NodeStep.timeoutCheck now pingOk)) lastEmit hv' hsub'
      · rcases hinv with ⟨hp, hh⟩ | ⟨d0, hp, hh, hd⟩
        · exact Or.inl ⟨hc.2.2.trans hp, hc.2.1.trans hh⟩
        · exact Or.inr ⟨d0, hc.2.2.trans hp, hc.2.1.trans hh, hd⟩
      · exact le_trans hle ht
    | socketClose now =>
      have hc := runStep_other_coalesce st (NodeStep.socketClose now)
        (by refine ⟨fun _ _ h => ?_, fun _ h => ?_⟩ <;> cases h)
      rw [filter_block_map_nil hc.1, List.map_nil, List.nil_append]
      apply ih _ (stepTime (NodeStep.socketClose now)) lastEmit hv' hsub'
      · rcases hinv with ⟨hp, hh⟩ | ⟨d0, hp, hh, hd⟩
        · exact Or.inl ⟨hc.2.2.trans hp, hc.2.1.trans hh⟩
        · exact Or.inr ⟨d0, hc.2.2.trans hp, hc.2.1.trans hh, hd⟩
      · exact le_trans hle ht
    | socketError now =>
      have hc := runStep_other_coalesce st (NodeStep.socketError now)
        (by refine ⟨fun _ _ h => ?_, fun _ h => ?_⟩ <;> cases h)
      rw [filter_block_map_nil hc.1, List.map_nil, List.nil_append]
      apply ih _ (stepTime (NodeStep.socketError now)) lastEmit hv' hsub'
      · rcases hinv with ⟨hp, hh⟩ | ⟨d0, hp, hh, hd⟩
        · exact Or.inl ⟨hc.2.2.trans hp, hc.2.1.trans hh⟩
        · exact Or.inr ⟨d0, hc.2.2.trans hp, hc.2.1.trans hh, hd⟩
      · exact le_trans hle ht

/-- At most one member of a 1000-spaced list lies in a 1000-wide
window. -/
theorem pairwise_window_le_one (l : List Nat) (t : Nat)
    (hp : List.Pairwise (fun a b => a + 1000 ≤ b) l)
    (hw : ∀ a ∈ l, t ≤ a ∧ a < t + 1000) : l.length ≤ 1 := by
  match l, hp with
  | [], _ => simp
  | [a], _ => simp
  | a :: b :: tl, hp =>
    exfalso
    have hab : a + 1000 ≤ b := (List.pairwise_cons.mp hp).1 b (by simp)
    have ha := hw a (by simp)
    have hb := hw b (by simp)
    omega

/-- A list whose consecutive members are 1000 apart meets any 1000-wide
window at most once. -/
theorem chain_window_count (ts : List Nat) (t : Nat)
    (hch : List.Chain' (fun a b => a + 1000 ≤ b) ts) :
    (ts.filter (fun a => decide (t ≤ a) && decide (a < t + 1000))).length ≤ 1 := by
  haveI : IsTrans Nat (fun a b => a + 1000 ≤ b) := ⟨fun a b c hab hbc => by omega⟩
  have hpw : List.Pairwise (fun a b => a + 1000 ≤ b) ts := List.chain'_iff_pairwise.mp hch
  have hpf : List.Pairwise (fun a b => a + 1000 ≤ b)
      (ts.filter (fun a => decide (t ≤ a) && decide (a < t + 1000))) :=
    hpw.sublist (List.filter_sublist ts)
  have hwin : ∀ a ∈ ts.filter (fun a => decide (t ≤ a) && decide (a < t + 1000)),
      t ≤ a ∧ a < t + 1000 := by
    intro a ha
    have h2 := (List.mem_filter.mp ha).2
    simp at h2
    exact h2
  exact pairwise_window_le_one _ t hpf hwin

/-- Filtering time-stamped events by a time window commutes with
projecting the times out. -/
theorem map_fst_filter_window (t : Nat) (l : List (Nat × Event)) :
    (l.filter (fun p => decide (t ≤ p.1) && decide (p.1 < t + 1000))).map Prod.fst =
      (l.map Prod.fst).filter (fun a => decide (t ≤ a) && decide (a < t + 1000)) := by
  induction l with
  | nil => rfl
  | cons p rest ih =>
    rw [List.filter_cons, List.map_cons, List.filter_cons]
    cases hq : (decide (t ≤ p.1) && decide (p.1 < t + 1000)) <;> simp [ih]

/-! ## Claim C8 -/

/-- C8: for an applied best-block update, a block time above 100 ms emits
`block` immediately; a sub-100 ms update while the coalescing timer is
already pending emits nothing immediately and starts no second timer; the
timer, when it fires, emits exactly one `block` event and clears the
pending flag; and consequently over every valid trace of a session that
starts idle, a burst of sub-100 ms best-block updates yields at most one
`block` event in any rolling 1000 ms window. -/
theorem block_event_coalescing :
    (∀ (st : NodeState) (now : Nat) (u : BestBlockUpd),
      st.best.hash ≠ u.best ∧ st.best.number ≤ u.height →
      100 < getBlockTime st u.ts →
      (updateBestBlock st now u).2 = [Event.block]) ∧
    (∀ (st : NodeState) (now : Nat) (u : BestBlockUpd),
      st.best.hash ≠ u.best ∧ st.best.number ≤ u.height →
      getBlockTime st u.ts ≤ 100 → st.throttle = true →
      (updateBestBlock st now u).2 = [] ∧
      (updateBestBlock st now u).1.pendingTimers = st.pendingTimers) ∧
    (∀ (st : NodeState) (d : Nat), st.pendingTimers.contains d = true →
      (runStep st (NodeStep.timerFire d)).2 = [Event.block] ∧
      (runStep st (NodeStep.timerFire d)).1.throttle = false) ∧
    (∀ (st0 : NodeState) (steps : List NodeStep) (t0 t : Nat),
      ValidFrom st0 t0 steps → SubHundred st0 steps →
      st0.throttle = false → st0.pendingTimers = [] →
      ((runTraceEvents st0 steps).filter
        (fun p => p.2 == Event.block && decide (t ≤ p.1) &&
          decide (p.1 < t + 1000))).length ≤ 1) := by
  refine ⟨?_, ?_, ?_, ?_⟩
  · intro st now u hcond hbt
    exact ((updateBestBlock_timer_cases st now u hcond).1 hbt).1
  · intro st now u hcond hbt hth
    obtain ⟨he, _, h2⟩ := (updateBestBlock_timer_cases st now u hcond).2.2 hbt hth
    exact ⟨he, h2⟩
  · intro st d hd
    obtain ⟨h1, h2, _⟩ := runStep_timer_fire st d hd
    exact ⟨h1, h2⟩
  · intro st0 steps t0 t hv hsub hth hpend
    have hch := coalesced_chain steps st0 t0 0 hv hsub (Or.inl ⟨hpend, hth⟩) (Nat.zero_le t0)
    have hch' : List.Chain' (fun a b => a + 1000 ≤ b)
        (((runTraceEvents st0 steps).filter (fun p => p.2 == Event.block)).map Prod.fst) :=
      hch.tail
    have heq : (runTraceEvents st0 steps).filter
        (fun p => p.2 == Event.block && decide (t ≤ p.1) && decide (p.1 < t + 1000)) =
        ((runTraceEvents st0 steps).filter (fun p => p.2 == Event.block)).filter
          (fun p => decide (t ≤ p.1) && decide (p.1 < t + 1000)) := by
      rw [List.filter_filter]
      apply List.filter_congr
      intro p _
      cases hx : (p.2 == Event.block) <;> cases hy : decide (t ≤ p.1) <;>
        cases hz : decide (p.1 < t + 1000) <;> simp [hx, hy, hz]
    rw [heq]
    have hmap : (((runTraceEvents st0 steps).filter (fun p => p.2 == Event.block)).filter
        (fun p => decide (t ≤ p.1) && decide (p.1 < t + 1000))).length =
        ((((runTraceEvents st0 steps).filter
          (fun p => p.2 == Event.block)).map Prod.fst).filter
          (fun a => decide (t ≤ a) && decide (a < t + 1000))).length := by
      rw [← map_fst_filter_window t]
      rw [List.length_map]
    rw [hmap]
    exact chain_window_count _ t hch'

theorem block_event_coalescing_witness :
    (({ mkNode none 0 with pendingTimers := [1000], throttle := true } :
        NodeState).pendingTimers.contains 1000 = true) ∧
    (runStep ({ mkNode none 0 with pendingTimers := [1000], throttle := true } : NodeState)
        (NodeStep.timerFire 1000)).2 = [Event.block] ∧
    (runStep ({ mkNode none 0 with pendingTimers := [1000], throttle := true } : NodeState)
        (NodeStep.timerFire 1000)).1.throttle = false :=
  ⟨by decide,
    block_event_coalescing.2.2.1
      ({ mkNode none 0 with pendingTimers := [1000], throttle := true } : NodeState) 1000
      (by decide)⟩

end Telemetry
